import Mathlib

/-!
# Ledger record service (`chaincode/smartcontract.go`)

A shallow embedding of the chaincode in `smartcontract.go` and the properties of its
create / read / update / delete / list operations.

The chaincode reaches two collaborators that are not part of the repository:

* the state store of the ledger (`ctx.GetStub()`): `GetState`, `PutState`, `DelState`,
  `GetStateByRange`.  It is embedded as a finite map from keys to stored bytes, kept in
  ascending key order; `PutState` rejects the empty key, the other calls do not fail;
* the codec `encoding/json`: `json.Marshal`, `json.Unmarshal`.  Stored bytes are embedded
  by what the JSON parser makes of them (text that is no JSON document, or the document),
  and the codec by what it does on documents: a Go string is written coerced to valid
  UTF-8, fields are matched by name (exactly, or up to case), unknown keys are ignored,
  missing keys leave the zero value, `null` leaves the destination as it is, and a value
  of the wrong JSON type is an error.

A Go `string` is embedded as its bytes (`GoString`), which need not be valid UTF-8; the
text of a JSON document is a `String`.  Go `int` is the 64-bit range of `Int`.
-/

namespace Chaincode

/-! ## Go strings and UTF-8 -/

/-- A Go `string`: a sequence of bytes, not necessarily valid UTF-8. -/
abbrev GoString := List (Fin 256)

namespace utf8

/-- The byte with the value `n`. -/
def byte (n : Nat) : Fin 256 := ⟨n % 256, Nat.mod_lt _ (by decide)⟩

/-- The constant `utf8.RuneError`, U+FFFD. -/
def RuneError : Char := Char.ofNat 0xFFFD

/-- The UTF-8 encoding of a rune (`utf8.AppendRune`). -/
def EncodeRune (c : Char) : GoString :=
  let n := c.toNat
  if n < 0x80 then [byte n]
  else if n < 0x800 then [byte (0xC0 + n / 64), byte (0x80 + n % 64)]
  else if n < 0x10000 then
    [byte (0xE0 + n / 4096), byte (0x80 + n / 64 % 64), byte (0x80 + n % 64)]
  else
    [byte (0xF0 + n / 262144), byte (0x80 + n / 4096 % 64), byte (0x80 + n / 64 % 64),
      byte (0x80 + n % 64)]

/-- The UTF-8 encoding of a text. -/
def encode : List Char → GoString
  | [] => []
  | c :: cs => EncodeRune c ++ encode cs

/-- Lowest second byte that may follow the first byte `b0` of a sequence. -/
def acceptLo (b0 : Nat) : Nat :=
  if b0 = 0xE0 then 0xA0 else if b0 = 0xF0 then 0x90 else 0x80

/-- Highest second byte that may follow the first byte `b0` of a sequence. -/
def acceptHi (b0 : Nat) : Nat :=
  if b0 = 0xED then 0x9F else if b0 = 0xF4 then 0x8F else 0xBF

/-- The function `utf8.DecodeRune`: the first rune of the bytes and its width; a byte that
starts no valid encoding gives `(RuneError, 1)`, no bytes give `(RuneError, 0)`. -/
def DecodeRune : GoString → Char × Nat
  | [] => (RuneError, 0)
  | b0 :: rest =>
    if b0.val < 0x80 then (Char.ofNat b0.val, 1)
    else if 0xC2 ≤ b0.val ∧ b0.val ≤ 0xDF then
      match rest with
      | b1 :: _ =>
        if 0x80 ≤ b1.val ∧ b1.val ≤ 0xBF then
          (Char.ofNat ((b0.val - 0xC0) * 64 + (b1.val - 0x80)), 2)
        else (RuneError, 1)
      | _ => (RuneError, 1)
    else if 0xE0 ≤ b0.val ∧ b0.val ≤ 0xEF then
      match rest with
      | b1 :: b2 :: _ =>
        if acceptLo b0.val ≤ b1.val ∧ b1.val ≤ acceptHi b0.val ∧
            0x80 ≤ b2.val ∧ b2.val ≤ 0xBF then
          (Char.ofNat ((b0.val - 0xE0) * 4096 + (b1.val - 0x80) * 64 + (b2.val - 0x80)), 3)
        else (RuneError, 1)
      | _ => (RuneError, 1)
    else if 0xF0 ≤ b0.val ∧ b0.val ≤ 0xF4 then
      match rest with
      | b1 :: b2 :: b3 :: _ =>
        if acceptLo b0.val ≤ b1.val ∧ b1.val ≤ acceptHi b0.val ∧
            0x80 ≤ b2.val ∧ b2.val ≤ 0xBF ∧ 0x80 ≤ b3.val ∧ b3.val ≤ 0xBF then
          (Char.ofNat ((b0.val - 0xF0) * 262144 + (b1.val - 0x80) * 4096 +
            (b2.val - 0x80) * 64 + (b3.val - 0x80)), 4)
        else (RuneError, 1)
      | _ => (RuneError, 1)
    else (RuneError, 1)

/-- The runes of the bytes, as a loop of `utf8.DecodeRune` reads them: `skip` bytes are
passed over (they belong to the rune read before), then a rune is read, and so on.  A byte
that starts no valid encoding is read as `RuneError`. -/
def runes : Nat → GoString → List Char
  | _, [] => []
  | skip + 1, _ :: rest => runes skip rest
  | 0, b :: rest => (DecodeRune (b :: rest)).1 :: runes ((DecodeRune (b :: rest)).2 - 1) rest

end utf8

/-- The Go string with the text `s`: a string literal of the source, or the conversion of
a decoded text to `string`. -/
def go (s : String) : GoString := utf8.encode s.data

/-- The bytes are valid UTF-8 (`utf8.ValidString`): they are the encoding of a text. -/
def utf8.ValidString (s : GoString) : Prop := ∃ t : String, s = go t

namespace json

/-- The text `json.Marshal` writes for a Go string: the string coerced to valid UTF-8, each
invalid byte replaced by the Unicode replacement rune U+FFFD. -/
def toValidUTF8 (s : GoString) : String := ⟨utf8.runes 0 s⟩

/-- What a Go string is after `json.Marshal` and `json.Unmarshal`: itself when it is valid
UTF-8, else with each invalid byte replaced by the encoding of U+FFFD. -/
def coerce (s : GoString) : GoString := go (toValidUTF8 s)

end json

/-! ## JSON documents and stored bytes -/

/-- A JSON document.  A number literal is `int n` when it is written as an integer and
`frac` when it carries a fraction or an exponent (such a literal never decodes into a Go
`int`). -/
inductive Json where
  | null
  | bool (b : Bool)
  | int (n : Int)
  | frac
  | str (s : String)
  | arr (xs : List Json)
  | obj (kvs : List (String × Json))

/-- The bytes stored under a key, as `encoding/json` reads them: text that is not a JSON
document, or the document the text denotes. -/
inductive Bytes where
  | malformed (raw : String)
  | doc (j : Json)

/-- The two errors of `json.Unmarshal`: `*json.SyntaxError` and
`*json.UnmarshalTypeError`. -/
inductive JsonError where
  | syntaxError
  | unmarshalTypeError
deriving DecidableEq, Repr

/-- The `error` values that the contract returns: built by `fmt.Errorf`, returned by
`encoding/json`, or returned by the state store. -/
inductive Error where
  | errorf (msg : GoString)
  | codec (e : JsonError)
  | stub (msg : GoString)
deriving DecidableEq, Repr

/-- The text of an error, as `%v` prints it; of an error of `encoding/json` only the start
of its text, the rest depends on the input.  (The contract formats store errors only.) -/
def Error.text : Error → GoString
  | .errorf msg => msg
  | .codec .syntaxError => go "invalid character"
  | .codec .unmarshalTypeError => go "json: cannot unmarshal"
  | .stub msg => msg

/-! ## The state store -/

/-- Order of two keys: lexicographic on their bytes. -/
def keyLt : GoString → GoString → Bool
  | _, [] => false
  | [], _ :: _ => true
  | a :: as, b :: bs =>
    if a.val < b.val then true
    else if a.val = b.val then keyLt as bs
    else false

/-- Strict key order of the store. -/
def KeyLt (a b : GoString) : Prop := keyLt a b = true

instance (a b : GoString) : Decidable (KeyLt a b) := by
  unfold KeyLt; infer_instance

/-- Entries are in strictly ascending key order (so no key occurs twice). -/
def Ascending (l : List (GoString × Bytes)) : Prop :=
  l.Pairwise (fun a b => KeyLt a.1 b.1)

/-- Lookup in a list of entries. -/
def lookup (key : GoString) : List (GoString × Bytes) → Option Bytes
  | [] => none
  | (k, v) :: rest => if key = k then some v else lookup key rest

/-- Insert or replace the entry of `key`, keeping the key order. -/
def insert (key : GoString) (value : Bytes) :
    List (GoString × Bytes) → List (GoString × Bytes)
  | [] => [(key, value)]
  | (k, v) :: rest =>
    if key = k then (key, value) :: rest
    else if KeyLt key k then (key, value) :: (k, v) :: rest
    else (k, v) :: insert key value rest

/-- Remove the entry of `key`. -/
def erase (key : GoString) : List (GoString × Bytes) → List (GoString × Bytes)
  | [] => []
  | (k, v) :: rest => if key = k then rest else (k, v) :: erase key rest

/-- The world state: the entries of the store.  A state of the ledger lists its entries in
ascending key order (`Ascending`) and holds nothing under the empty key, which `PutState`
rejects; the operations below keep both. -/
abbrev World := List (GoString × Bytes)

/-- The `GetState` call of the stub: the bytes stored under `key`, `none` (Go `nil`) when
the key is absent. -/
def GetState (ctx : World) (key : GoString) : Except Error (Option Bytes) :=
  .ok (lookup key ctx)

/-- The `PutState` call of the stub: it returns an error for the empty key (`key must not
be an empty string`) and writes otherwise. -/
def PutState (ctx : World) (key : GoString) (value : Bytes) : Except Error World :=
  if key = [] then .error (.stub (go "key must not be an empty string"))
  else .ok (insert key value ctx)

/-- The `DelState` call of the stub. -/
def DelState (ctx : World) (key : GoString) : Except Error World :=
  .ok (erase key ctx)

/-- The `GetStateByRange` call of the stub: the entries with `startKey ≤ key < endKey` in
key order, an empty bound being no bound. -/
def GetStateByRange (ctx : World) (startKey endKey : GoString) :
    Except Error (List (GoString × Bytes)) :=
  .ok (ctx.filter fun e =>
    (startKey == [] || startKey == e.1 || decide (KeyLt startKey e.1)) &&
    (endKey == [] || decide (KeyLt e.1 endKey)))

/-! ## Records -/

/-- Go `int`: 64 bits. -/
abbrev GoInt := {n : Int // -9223372036854775808 ≤ n ∧ n ≤ 9223372036854775807}

/-- The zero value of `int`. -/
def GoInt.zero : GoInt := ⟨0, by decide⟩

/-- Farmer describes basic details of a farmer. -/
structure Farmer where
  Aadhar : GoString
  ID : GoString
  Name : GoString
deriving DecidableEq, Repr

/-- The `Company` struct. -/
structure Company where
  ID : GoString
  Name : GoString
  GST : GoString
deriving DecidableEq, Repr

/-- The `Crop` struct. -/
structure Crop where
  ID : GoString
  Name : GoString
  Price : GoInt
  LastUpdate : GoString
deriving DecidableEq, Repr

/-- The `Bidder` struct. -/
structure Bidder where
  CompanyName : GoString
  BidPrice : GoInt
  Timestamp : GoString
deriving DecidableEq, Repr

/-- The `Bid` struct.  The slice `Bidders` is `none` when it is `nil` and `some l` when it
is a slice with the elements `l` (`some []` is the empty slice `[]Bidder{}`). -/
structure Bid where
  CropID : GoString
  CropName : GoString
  FarmerAadhar : GoString
  BasePrice : GoInt
  Date : GoString
  Expiry : GoString
  Bidders : Option (List Bidder)
deriving DecidableEq, Repr

/-- Go `append(s, x)` on a slice. -/
def append (s : Option (List Bidder)) (x : Bidder) : Option (List Bidder) :=
  some (s.getD [] ++ [x])

/-! ## The codec -/

namespace json

/-- Case folding of one rune, restricted to what can fold onto an ASCII letter: the
upper-case letters, U+017F (long s) and U+212A (Kelvin sign). -/
def foldRune (c : Char) : Char :=
  let n := c.toNat
  if 65 ≤ n ∧ n ≤ 90 then Char.ofNat (n + 32)
  else if n = 0x17F then 's'
  else if n = 0x212A then 'k'
  else c

/-- A key of an object names the field tagged `name` (a lower-case ASCII tag): exactly, or
up to case. -/
def fieldIs (key name : String) : Bool :=
  key == name || key.data.map foldRune == name.data

/-- Decode a value into a `string` field holding `old`. -/
def decodeString (v : Json) (old : GoString) : Except JsonError GoString :=
  match v with
  | .str s => .ok (go s)
  | .null => .ok old
  | _ => .error .unmarshalTypeError

/-- Decode a value into an `int` field holding `old`. -/
def decodeInt (v : Json) (old : GoInt) : Except JsonError GoInt :=
  match v with
  | .int n =>
    if h : -9223372036854775808 ≤ n ∧ n ≤ 9223372036854775807 then .ok ⟨n, h⟩
    else .error .unmarshalTypeError
  | .null => .ok old
  | _ => .error .unmarshalTypeError

end json

/-- A struct type of the contract, as `encoding/json` sees it: its zero value, the members
`json.Marshal` writes (in declaration order, under the `json:` tags, a string coerced to
valid UTF-8), and the decoding of one member of an object into the struct. -/
class GoStruct (α : Type) where
  zero : α
  members : α → List (String × Json)
  setField : α → String → Json → Except JsonError α

namespace json

/-- Decode the members of an object into a struct, one after the other; a key that names
no field is skipped. -/
def decodeObject {α : Type} [GoStruct α] : List (String × Json) → α → Except JsonError α
  | [], dst => .ok dst
  | (k, v) :: rest, dst =>
    match GoStruct.setField dst k v with
    | .error e => .error e
    | .ok dst' => decodeObject rest dst'

/-- Decode a value into a struct: `null` leaves it as it is, an object sets its fields,
anything else is a type error. -/
def decodeStruct {α : Type} [GoStruct α] (v : Json) (dst : α) : Except JsonError α :=
  match v with
  | .null => .ok dst
  | .obj kvs => decodeObject kvs dst
  | _ => .error .unmarshalTypeError

/-- Decode the elements of an array into a slice whose elements are `olds`: an element at
a position that `olds` reaches is decoded into the element there, an element beyond it
into the zero value.  (`olds` is not empty only when an object repeats the key of the
slice.  Elements that an earlier, longer array left in the spare capacity of the slice are
not kept track of: an element beyond `olds` starts from zero.) -/
def decodeElems {α : Type} [GoStruct α] : List Json → List α → Except JsonError (List α)
  | [], _ => .ok []
  | v :: rest, olds =>
    match decodeStruct v (olds.head?.getD GoStruct.zero) with
    | .error e => .error e
    | .ok x =>
      match decodeElems rest olds.tail with
      | .error e => .error e
      | .ok xs => .ok (x :: xs)

/-- Decode a value into a slice field holding `old`: `null` makes it `nil`, an array sets
its length to that of the array and decodes the elements in place. -/
def decodeSlice {α : Type} [GoStruct α] (v : Json) (old : Option (List α)) :
    Except JsonError (Option (List α)) :=
  match v with
  | .null => .ok none
  | .arr xs =>
    match decodeElems xs (old.getD []) with
    | .error e => .error e
    | .ok l => .ok (some l)
  | _ => .error .unmarshalTypeError

/-- The function `json.Marshal` on a struct of the contract (it has no error case for
these types). -/
def Marshal {α : Type} [GoStruct α] (v : α) : Except Error Bytes :=
  .ok (.doc (.obj (GoStruct.members v)))

/-- The function `json.Unmarshal` into a zero-valued struct variable. -/
def Unmarshal {α : Type} [GoStruct α] (data : Bytes) : Except Error α :=
  match data with
  | .malformed _ => .error (.codec .syntaxError)
  | .doc j =>
    match decodeStruct j (GoStruct.zero : α) with
    | .error e => .error (.codec e)
    | .ok v => .ok v

end json

instance : GoStruct Farmer where
  zero := { Aadhar := [], ID := [], Name := [] }
  members f := [
    ("aadhar", .str (json.toValidUTF8 f.Aadhar)),
    ("id", .str (json.toValidUTF8 f.ID)),
    ("name", .str (json.toValidUTF8 f.Name))]
  setField f key v :=
    if json.fieldIs key "aadhar" then
      (json.decodeString v f.Aadhar).map fun s => { f with Aadhar := s }
    else if json.fieldIs key "id" then
      (json.decodeString v f.ID).map fun s => { f with ID := s }
    else if json.fieldIs key "name" then
      (json.decodeString v f.Name).map fun s => { f with Name := s }
    else .ok f

instance : GoStruct Company where
  zero := { ID := [], Name := [], GST := [] }
  members c := [
    ("id", .str (json.toValidUTF8 c.ID)),
    ("name", .str (json.toValidUTF8 c.Name)),
    ("gst", .str (json.toValidUTF8 c.GST))]
  setField c key v :=
    if json.fieldIs key "id" then
      (json.decodeString v c.ID).map fun s => { c with ID := s }
    else if json.fieldIs key "name" then
      (json.decodeString v c.Name).map fun s => { c with Name := s }
    else if json.fieldIs key "gst" then
      (json.decodeString v c.GST).map fun s => { c with GST := s }
    else .ok c

instance : GoStruct Crop where
  zero := { ID := [], Name := [], Price := GoInt.zero, LastUpdate := [] }
  members c := [
    ("id", .str (json.toValidUTF8 c.ID)),
    ("name", .str (json.toValidUTF8 c.Name)),
    ("price", .int c.Price.val),
    ("last_update", .str (json.toValidUTF8 c.LastUpdate))]
  setField c key v :=
    if json.fieldIs key "id" then
      (json.decodeString v c.ID).map fun s => { c with ID := s }
    else if json.fieldIs key "name" then
      (json.decodeString v c.Name).map fun s => { c with Name := s }
    else if json.fieldIs key "price" then
      (json.decodeInt v c.Price).map fun n => { c with Price := n }
    else if json.fieldIs key "last_update" then
      (json.decodeString v c.LastUpdate).map fun s => { c with LastUpdate := s }
    else .ok c

instance : GoStruct Bidder where
  zero := { CompanyName := [], BidPrice := GoInt.zero, Timestamp := [] }
  members b := [
    ("company_name", .str (json.toValidUTF8 b.CompanyName)),
    ("bid_price", .int b.BidPrice.val),
    ("timestamp", .str (json.toValidUTF8 b.Timestamp))]
  setField b key v :=
    if json.fieldIs key "company_name" then
      (json.decodeString v b.CompanyName).map fun s => { b with CompanyName := s }
    else if json.fieldIs key "bid_price" then
      (json.decodeInt v b.BidPrice).map fun n => { b with BidPrice := n }
    else if json.fieldIs key "timestamp" then
      (json.decodeString v b.Timestamp).map fun s => { b with Timestamp := s }
    else .ok b

/-- The value `json.Marshal` writes for the slice `Bidders`: `null` for `nil`, else the
array of its elements. -/
def biddersJson : Option (List Bidder) → Json
  | none => .null
  | some l => .arr (l.map fun b => .obj (GoStruct.members b))

instance : GoStruct Bid where
  zero :=
    { CropID := [], CropName := [], FarmerAadhar := [], BasePrice := GoInt.zero,
      Date := [], Expiry := [], Bidders := none }
  members b := [
    ("crop_id", .str (json.toValidUTF8 b.CropID)),
    ("crop_name", .str (json.toValidUTF8 b.CropName)),
    ("farmer_aadhar", .str (json.toValidUTF8 b.FarmerAadhar)),
    ("base_price", .int b.BasePrice.val),
    ("date", .str (json.toValidUTF8 b.Date)),
    ("expiry", .str (json.toValidUTF8 b.Expiry)),
    ("bidders", biddersJson b.Bidders)]
  setField b key v :=
    if json.fieldIs key "crop_id" then
      (json.decodeString v b.CropID).map fun s => { b with CropID := s }
    else if json.fieldIs key "crop_name" then
      (json.decodeString v b.CropName).map fun s => { b with CropName := s }
    else if json.fieldIs key "farmer_aadhar" then
      (json.decodeString v b.FarmerAadhar).map fun s => { b with FarmerAadhar := s }
    else if json.fieldIs key "base_price" then
      (json.decodeInt v b.BasePrice).map fun n => { b with BasePrice := n }
    else if json.fieldIs key "date" then
      (json.decodeString v b.Date).map fun s => { b with Date := s }
    else if json.fieldIs key "expiry" then
      (json.decodeString v b.Expiry).map fun s => { b with Expiry := s }
    else if json.fieldIs key "bidders" then
      (json.decodeSlice v b.Bidders).map fun l => { b with Bidders := l }
    else .ok b

/-- The farmer as `json.Marshal` and `json.Unmarshal` return it: each string coerced to
valid UTF-8. -/
def Farmer.coerce (f : Farmer) : Farmer :=
  { Aadhar := json.coerce f.Aadhar, ID := json.coerce f.ID, Name := json.coerce f.Name }

/-- The company as `json.Marshal` and `json.Unmarshal` return it. -/
def Company.coerce (c : Company) : Company :=
  { ID := json.coerce c.ID, Name := json.coerce c.Name, GST := json.coerce c.GST }

/-- The crop as `json.Marshal` and `json.Unmarshal` return it. -/
def Crop.coerce (c : Crop) : Crop :=
  { ID := json.coerce c.ID, Name := json.coerce c.Name, Price := c.Price,
    LastUpdate := json.coerce c.LastUpdate }

/-- The bidder as `json.Marshal` and `json.Unmarshal` return it. -/
def Bidder.coerce (b : Bidder) : Bidder :=
  { CompanyName := json.coerce b.CompanyName, BidPrice := b.BidPrice,
    Timestamp := json.coerce b.Timestamp }

/-- The bid as `json.Marshal` and `json.Unmarshal` return it: each string coerced to valid
UTF-8, in the bidders too. -/
def Bid.coerce (b : Bid) : Bid :=
  { CropID := json.coerce b.CropID, CropName := json.coerce b.CropName,
    FarmerAadhar := json.coerce b.FarmerAadhar, BasePrice := b.BasePrice,
    Date := json.coerce b.Date, Expiry := json.coerce b.Expiry,
    Bidders := b.Bidders.map fun l => l.map Bidder.coerce }

/-! ## The contract -/

/-- The loop of `InitLedger` over the seed farmers. -/
def InitLedger.loop : List Farmer → World → Except Error World
  | [], ctx => .ok ctx
  | farmer :: rest, ctx =>
    match json.Marshal farmer with
    | .error err => .error err
    | .ok farmerJSON =>
      match PutState ctx farmer.ID farmerJSON with
      | .error err => .error (.errorf (go "failed to put to world state. " ++ err.text))
      | .ok ctx' => InitLedger.loop rest ctx'

/-- InitLedger adds a base set of farmers to the ledger. -/
def InitLedger (ctx : World) : Except Error World :=
  let farmers : List Farmer := [
    { ID := go "farmer1", Name := go "Ravi Kumar", Aadhar := go "123456789012" },
    { ID := go "farmer2", Name := go "Sunita Sharma", Aadhar := go "234567890123" },
    { ID := go "farmer3", Name := go "Amit Patel", Aadhar := go "345678901234" },
    { ID := go "farmer4", Name := go "Geeta Verma", Aadhar := go "456789012345" }]
  InitLedger.loop farmers ctx

/-- FarmerExists checks if a farmer with given ID exists. -/
def FarmerExists (ctx : World) (id : GoString) : Except Error Bool :=
  match GetState ctx id with
  | .error err => .error (.errorf (go "failed to read from world state: " ++ err.text))
  | .ok farmerJSON => .ok farmerJSON.isSome

/-- CreateFarmer adds a new farmer to the world state. -/
def CreateFarmer (ctx : World) (id name aadhar : GoString) : Except Error World :=
  match FarmerExists ctx id with
  | .error err => .error err
  | .ok found =>
    if found then .error (.errorf (go "the farmer " ++ id ++ go " already exists"))
    else
      let farmer : Farmer := { ID := id, Name := name, Aadhar := aadhar }
      match json.Marshal farmer with
      | .error err => .error err
      | .ok farmerJSON => PutState ctx id farmerJSON

/-- ReadFarmer returns the farmer stored in the world state with given id. -/
def ReadFarmer (ctx : World) (id : GoString) : Except Error Farmer :=
  match GetState ctx id with
  | .error err => .error (.errorf (go "failed to read from world state: " ++ err.text))
  | .ok none => .error (.errorf (go "the farmer " ++ id ++ go " does not exist"))
  | .ok (some farmerJSON) => json.Unmarshal farmerJSON

/-- UpdateFarmer updates an existing farmer in the world state. -/
def UpdateFarmer (ctx : World) (id name aadhar : GoString) : Except Error World :=
  match FarmerExists ctx id with
  | .error err => .error err
  | .ok found =>
    if !found then .error (.errorf (go "the farmer " ++ id ++ go " does not exist"))
    else
      let farmer : Farmer := { ID := id, Name := name, Aadhar := aadhar }
      match json.Marshal farmer with
      | .error err => .error err
      | .ok farmerJSON => PutState ctx id farmerJSON

/-- DeleteFarmer deletes a farmer from the world state. -/
def DeleteFarmer (ctx : World) (id : GoString) : Except Error World :=
  match FarmerExists ctx id with
  | .error err => .error err
  | .ok found =>
    if !found then .error (.errorf (go "the farmer " ++ id ++ go " does not exist"))
    else DelState ctx id

/-- The loop of `GetAllFarmers` over the iterator: a value that does not decode ends the
scan with the error. -/
def GetAllFarmers.loop : List (GoString × Bytes) → List Farmer → Except Error (List Farmer)
  | [], farmers => .ok farmers
  | queryResponse :: rest, farmers =>
    match (json.Unmarshal queryResponse.2 : Except Error Farmer) with
    | .error err => .error err
    | .ok farmer => GetAllFarmers.loop rest (farmers ++ [farmer])

/-- GetAllFarmers returns all farmers in the world state. -/
def GetAllFarmers (ctx : World) : Except Error (List Farmer) :=
  match GetStateByRange ctx [] [] with
  | .error err => .error err
  | .ok resultsIterator => GetAllFarmers.loop resultsIterator []

/-- CompanyExists checks if a company exists in the world state. -/
def CompanyExists (ctx : World) (id : GoString) : Except Error Bool :=
  match GetState ctx id with
  | .error err => .error (.errorf (go "failed to read from world state: " ++ err.text))
  | .ok companyJSON => .ok companyJSON.isSome

/-- CreateCompany adds a new company to the world state. -/
def CreateCompany (ctx : World) (id name gst : GoString) : Except Error World :=
  match CompanyExists ctx id with
  | .error err => .error err
  | .ok found =>
    if found then .error (.errorf (go "the company " ++ id ++ go " already exists"))
    else
      let company : Company := { ID := id, Name := name, GST := gst }
      match json.Marshal company with
      | .error err => .error err
      | .ok companyJSON => PutState ctx id companyJSON

/-- ReadCompany returns a company from the world state. -/
def ReadCompany (ctx : World) (id : GoString) : Except Error Company :=
  match GetState ctx id with
  | .error err => .error (.errorf (go "failed to read from world state: " ++ err.text))
  | .ok none => .error (.errorf (go "the company " ++ id ++ go " does not exist"))
  | .ok (some companyJSON) => json.Unmarshal companyJSON

/-- UpdateCompany updates an existing company. -/
def UpdateCompany (ctx : World) (id name gst : GoString) : Except Error World :=
  match CompanyExists ctx id with
  | .error err => .error err
  | .ok found =>
    if !found then .error (.errorf (go "the company " ++ id ++ go " does not exist"))
    else
      let company : Company := { ID := id, Name := name, GST := gst }
      match json.Marshal company with
      | .error err => .error err
      | .ok companyJSON => PutState ctx id companyJSON

/-- DeleteCompany deletes a company from the world state. -/
def DeleteCompany (ctx : World) (id : GoString) : Except Error World :=
  match CompanyExists ctx id with
  | .error err => .error err
  | .ok found =>
    if !found then .error (.errorf (go "the company " ++ id ++ go " does not exist"))
    else DelState ctx id

/-- The loop of `GetAllCompanies` over the iterator: a value that does not decode is
skipped (`continue`). -/
def GetAllCompanies.loop : List (GoString × Bytes) → List Company → Except Error (List Company)
  | [], companies => .ok companies
  | queryResponse :: rest, companies =>
    match (json.Unmarshal queryResponse.2 : Except Error Company) with
    | .error _ => GetAllCompanies.loop rest companies
    | .ok company => GetAllCompanies.loop rest (companies ++ [company])

/-- GetAllCompanies returns all companies in the world state. -/
def GetAllCompanies (ctx : World) : Except Error (List Company) :=
  match GetStateByRange ctx [] [] with
  | .error err => .error err
  | .ok resultsIterator => GetAllCompanies.loop resultsIterator []

/-- The function `CreateCrop`: no existence check. -/
def CreateCrop (ctx : World) (id name : GoString) (price : GoInt) (lastUpdate : GoString) :
    Except Error World :=
  let crop : Crop := { ID := id, Name := name, Price := price, LastUpdate := lastUpdate }
  match json.Marshal crop with
  | .error err => .error err
  | .ok cropJSON => PutState ctx id cropJSON

/-- The function `GetCrop`. -/
def GetCrop (ctx : World) (id : GoString) : Except Error Crop :=
  match GetState ctx id with
  | .error err => .error err
  | .ok none => .error (.errorf (go "crop " ++ id ++ go " not found"))
  | .ok (some cropJSON) => json.Unmarshal cropJSON

/-- The loop of `GetAllCrops` over the iterator: a value is kept when it decodes without
error and its `Name` is not empty. -/
def GetAllCrops.loop : List (GoString × Bytes) → List Crop → Except Error (List Crop)
  | [], crops => .ok crops
  | queryResponse :: rest, crops =>
    match (json.Unmarshal queryResponse.2 : Except Error Crop) with
    | .ok crop =>
      if crop.Name != [] then GetAllCrops.loop rest (crops ++ [crop])
      else GetAllCrops.loop rest crops
    | .error _ => GetAllCrops.loop rest crops

/-- The function `GetAllCrops`. -/
def GetAllCrops (ctx : World) : Except Error (List Crop) :=
  match GetStateByRange ctx [] [] with
  | .error err => .error err
  | .ok resultsIterator => GetAllCrops.loop resultsIterator []

/-- The function `CreateBid`: no existence check, the bid starts with the empty slice of
bidders. -/
def CreateBid (ctx : World) (cropId cropName farmerAadhar : GoString) (basePrice : GoInt)
    (date expiry : GoString) : Except Error World :=
  let bid : Bid :=
    { CropID := cropId, CropName := cropName, FarmerAadhar := farmerAadhar,
      BasePrice := basePrice, Date := date, Expiry := expiry, Bidders := some [] }
  match json.Marshal bid with
  | .error err => .error err
  | .ok bidJSON => PutState ctx (go "BID_" ++ cropId) bidJSON

/-- The function `GetBid`. -/
def GetBid (ctx : World) (cropId : GoString) : Except Error Bid :=
  match GetState ctx (go "BID_" ++ cropId) with
  | .error err => .error err
  | .ok none => .error (.errorf (go "bid for crop " ++ cropId ++ go " not found"))
  | .ok (some bidJSON) => json.Unmarshal bidJSON

/-- The loop of `GetAllBids` over the iterator: a value is kept when it decodes without
error and its `CropID` is not empty. -/
def GetAllBids.loop : List (GoString × Bytes) → List Bid → Except Error (List Bid)
  | [], bids => .ok bids
  | queryResponse :: rest, bids =>
    match (json.Unmarshal queryResponse.2 : Except Error Bid) with
    | .ok bid =>
      if bid.CropID != [] then GetAllBids.loop rest (bids ++ [bid])
      else GetAllBids.loop rest bids
    | .error _ => GetAllBids.loop rest bids

/-- The function `GetAllBids`. -/
def GetAllBids (ctx : World) : Except Error (List Bid) :=
  match GetStateByRange ctx [] [] with
  | .error err => .error err
  | .ok resultsIterator => GetAllBids.loop resultsIterator []

/-- The function `MakeBid`: read the bid, append the bidder, write the bid back. -/
def MakeBid (ctx : World) (cropId companyName : GoString) (bidPrice : GoInt)
    (timestamp : GoString) : Except Error World :=
  match GetBid ctx cropId with
  | .error err => .error err
  | .ok bid =>
    let newBidder : Bidder :=
      { CompanyName := companyName, BidPrice := bidPrice, Timestamp := timestamp }
    let bid := { bid with Bidders := append bid.Bidders newBidder }
    match json.Marshal bid with
    | .error err => .error err
    | .ok bidJSON => PutState ctx (go "BID_" ++ cropId) bidJSON

/-! ## Transactions -/

/-- A call of one of the state-changing functions of the contract. -/
inductive Op where
  | InitLedger
  | CreateFarmer (id name aadhar : GoString)
  | UpdateFarmer (id name aadhar : GoString)
  | DeleteFarmer (id : GoString)
  | CreateCompany (id name gst : GoString)
  | UpdateCompany (id name gst : GoString)
  | DeleteCompany (id : GoString)
  | CreateCrop (id name : GoString) (price : GoInt) (lastUpdate : GoString)
  | CreateBid (cropId cropName farmerAadhar : GoString) (basePrice : GoInt)
      (date expiry : GoString)
  | MakeBid (cropId companyName : GoString) (bidPrice : GoInt) (timestamp : GoString)

/-- The call an `Op` stands for. -/
def Op.call (ctx : World) : Op → Except Error World
  | .InitLedger => Chaincode.InitLedger ctx
  | .CreateFarmer id name aadhar => Chaincode.CreateFarmer ctx id name aadhar
  | .UpdateFarmer id name aadhar => Chaincode.UpdateFarmer ctx id name aadhar
  | .DeleteFarmer id => Chaincode.DeleteFarmer ctx id
  | .CreateCompany id name gst => Chaincode.CreateCompany ctx id name gst
  | .UpdateCompany id name gst => Chaincode.UpdateCompany ctx id name gst
  | .DeleteCompany id => Chaincode.DeleteCompany ctx id
  | .CreateCrop id name price lastUpdate => Chaincode.CreateCrop ctx id name price lastUpdate
  | .CreateBid cropId cropName farmerAadhar basePrice date expiry =>
    Chaincode.CreateBid ctx cropId cropName farmerAadhar basePrice date expiry
  | .MakeBid cropId companyName bidPrice timestamp =>
    Chaincode.MakeBid ctx cropId companyName bidPrice timestamp

/-- The ledger after a transaction: the writes of a call that returns an error are not
committed. -/
def commit (ctx : World) (result : Except Error World) : World :=
  match result with
  | .ok ctx' => ctx'
  | .error _ => ctx

/-- The ledger after the transaction `op`. -/
def exec (ctx : World) (op : Op) : World :=
  commit ctx (op.call ctx)

/-- The ledger after a sequence of transactions. -/
def run (ctx : World) (ops : List Op) : World :=
  ops.foldl exec ctx

/-- The calls made one after the other, each on the ledger the one before left, up to the
first one that returns an error. -/
def callAll (ctx : World) : List Op → Except Error World
  | [] => .ok ctx
  | op :: rest =>
    match op.call ctx with
    | .error err => .error err
    | .ok ctx' => callAll ctx' rest

/-- The keys under which a call can store a record where none was stored. -/
def Op.createsAt : Op → List GoString
  | .InitLedger => [go "farmer1", go "farmer2", go "farmer3", go "farmer4"]
  | .CreateFarmer id _ _ => [id]
  | .CreateCompany id _ _ => [id]
  | .CreateCrop id _ _ _ => [id]
  | .CreateBid cropId _ _ _ _ _ => [go "BID_" ++ cropId]
  | _ => []

/-- The `cropId` of a `CreateBid` call is valid UTF-8 (no condition on other calls). -/
def Op.ValidBidKey : Op → Prop
  | .CreateBid cropId _ _ _ _ _ => utf8.ValidString cropId
  | _ => True

/-- The empty ledger. -/
def emptyLedger : World := []

/-! ## Predicates on stored values -/

/-- The bytes decode without error as a farmer, as a company, as a crop and as a bid. -/
def DecodesAsEveryKind (data : Bytes) : Prop :=
  (∃ farmer : Farmer, json.Unmarshal data = .ok farmer) ∧
  (∃ company : Company, json.Unmarshal data = .ok company) ∧
  (∃ crop : Crop, json.Unmarshal data = .ok crop) ∧
  (∃ bid : Bid, json.Unmarshal data = .ok bid)

/-- An entry whose value decodes as a bid with a non-empty `CropID` is stored under the
key `"BID_" + CropID`. -/
def BidKeyed (e : GoString × Bytes) : Prop :=
  ∀ bid : Bid, json.Unmarshal e.2 = .ok bid → bid.CropID ≠ [] →
    e.1 = go "BID_" ++ bid.CropID

/-! ## The key order -/

theorem keyLt_irrefl (a : GoString) : keyLt a a = false := by
  induction a with
  | nil => rfl
  | cons c cs ih => simp [keyLt, ih]

theorem keyLt_trans : ∀ (a b c : GoString), keyLt a b = true → keyLt b c = true →
    keyLt a c = true
  | _, [], _, h, _ => by simp [keyLt] at h
  | _, _ :: _, [], _, h => by simp [keyLt] at h
  | [], _ :: _, _ :: _, _, _ => by simp [keyLt]
  | a :: as, b :: bs, c :: cs, h1, h2 => by
    simp only [keyLt] at h1 h2 ⊢
    by_cases hab : a.val < b.val
    · by_cases hbc : b.val < c.val
      · simp [show a.val < c.val by omega]
      · simp only [hbc, if_false] at h2
        by_cases hbc2 : b.val = c.val
        · simp [show a.val < c.val by omega]
        · simp [hbc2] at h2
    · simp only [hab, if_false] at h1
      by_cases hab2 : a.val = b.val
      · simp only [hab2, if_true] at h1
        by_cases hbc : b.val < c.val
        · simp [show a.val < c.val by omega]
        · simp only [hbc, if_false] at h2
          by_cases hbc2 : b.val = c.val
          · simp only [hbc2, if_true] at h2
            have := keyLt_trans as bs cs h1 h2
            simp [show ¬ a.val < c.val by omega, show a.val = c.val by omega, this]
          · simp [hbc2] at h2
      · simp [hab2] at h1

theorem keyLt_total : ∀ (a b : GoString), keyLt a b = false → a ≠ b → keyLt b a = true
  | [], [], _, h => by simp at h
  | [], _ :: _, h, _ => by simp [keyLt] at h
  | _ :: _, [], _, _ => by simp [keyLt]
  | a :: as, b :: bs, h1, h2 => by
    simp only [keyLt] at h1 ⊢
    by_cases hab : a.val < b.val
    · simp [hab] at h1
    · simp only [hab, if_false] at h1
      by_cases hab2 : a.val = b.val
      · simp only [hab2, if_true] at h1
        have hc : a = b := Fin.ext hab2
        subst hc
        have : as ≠ bs := fun h => h2 (by rw [h])
        simp [keyLt_total as bs h1 this]
      · simp [show b.val < a.val by omega]

theorem KeyLt.irrefl (a : GoString) : ¬ KeyLt a a := by
  simp [KeyLt, keyLt_irrefl]

theorem KeyLt.trans {a b c : GoString} (h1 : KeyLt a b) (h2 : KeyLt b c) : KeyLt a c :=
  keyLt_trans _ _ _ h1 h2

theorem KeyLt.total {a b : GoString} (h1 : ¬ KeyLt a b) (h2 : a ≠ b) : KeyLt b a := by
  apply keyLt_total
  · simpa [KeyLt] using h1
  · exact h2

/-! ## The store: lookup after a write -/

theorem lookup_insert_self (key : GoString) (value : Bytes) (l : List (GoString × Bytes)) :
    lookup key (insert key value l) = some value := by
  induction l with
  | nil => simp [insert, lookup]
  | cons e rest ih =>
    obtain ⟨k, v⟩ := e
    simp only [insert]
    split
    · simp [lookup]
    · split
      · simp [lookup]
      · simp [lookup, *]

theorem lookup_insert_ne {key key' : GoString} (h : key' ≠ key) (value : Bytes)
    (l : List (GoString × Bytes)) : lookup key' (insert key value l) = lookup key' l := by
  induction l with
  | nil => simp [insert, lookup, h]
  | cons e rest ih =>
    obtain ⟨k, v⟩ := e
    simp only [insert]
    split
    · next hk => subst hk; simp [lookup, h]
    · split
      · simp [lookup, h]
      · simp [lookup, ih]

theorem lookup_erase_ne {key key' : GoString} (h : key' ≠ key) (l : List (GoString × Bytes)) :
    lookup key' (erase key l) = lookup key' l := by
  induction l with
  | nil => simp [erase, lookup]
  | cons e rest ih =>
    obtain ⟨k, v⟩ := e
    simp only [erase]
    split
    · next hk => subst hk; simp [lookup, h]
    · simp [lookup, ih]

theorem getStateByRange_all (ctx : World) : GetStateByRange ctx [] [] = .ok ctx := by
  simp [GetStateByRange]

/-! ## UTF-8: decoding an encoding -/

theorem char_range (c : Char) :
    c.toNat < 0xD800 ∨ (0xDFFF < c.toNat ∧ c.toNat < 0x110000) := by
  have := c.valid
  simp only [UInt32.isValidChar, Nat.isValidChar] at this
  exact this

theorem decodeRune_encodeRune (c : Char) (rest : GoString) :
    utf8.DecodeRune (utf8.EncodeRune c ++ rest) = (c, (utf8.EncodeRune c).length) := by
  have hr := char_range c
  have hc : Char.ofNat c.toNat = c := Char.ofNat_toNat c
  unfold utf8.EncodeRune
  generalize c.toNat = n at hr hc
  by_cases h1 : n < 0x80
  · have e : n % 256 = n := by omega
    simp [utf8.DecodeRune, utf8.byte, h1, e, hc]
  · by_cases h2 : n < 0x800
    · have e0 : (0xC0 + n / 64) % 256 = 0xC0 + n / 64 := by omega
      have e1 : (0x80 + n % 64) % 256 = 0x80 + n % 64 := by omega
      have a0 : ¬ (0xC0 + n / 64 < 0x80) := by omega
      have a1 : 0xC2 ≤ 0xC0 + n / 64 ∧ 0xC0 + n / 64 ≤ 0xDF := by omega
      have a2 : 0x80 ≤ 0x80 + n % 64 ∧ 0x80 + n % 64 ≤ 0xBF := by omega
      have v : n / 64 * 64 + n % 64 = n := by omega
      simp [utf8.DecodeRune, utf8.byte, h1, h2, e0, e1, a0, a1, a2, v, hc]
    · by_cases h3 : n < 0x10000
      · have e0 : (0xE0 + n / 4096) % 256 = 0xE0 + n / 4096 := by omega
        have e1 : (0x80 + n / 64 % 64) % 256 = 0x80 + n / 64 % 64 := by omega
        have e2 : (0x80 + n % 64) % 256 = 0x80 + n % 64 := by omega
        have a0 : ¬ (0xE0 + n / 4096 < 0x80) := by omega
        have a1 : ¬ (0xC2 ≤ 0xE0 + n / 4096 ∧ 0xE0 + n / 4096 ≤ 0xDF) := by omega
        have a2 : 0xE0 ≤ 0xE0 + n / 4096 ∧ 0xE0 + n / 4096 ≤ 0xEF := by omega
        have a3 : utf8.acceptLo (0xE0 + n / 4096) ≤ 0x80 + n / 64 % 64 ∧
            0x80 + n / 64 % 64 ≤ utf8.acceptHi (0xE0 + n / 4096) ∧
            0x80 ≤ 0x80 + n % 64 ∧ 0x80 + n % 64 ≤ 0xBF := by
          simp only [utf8.acceptLo, utf8.acceptHi]
          split_ifs <;> omega
        have v : n / 4096 * 4096 + n / 64 % 64 * 64 + n % 64 = n := by omega
        simp [utf8.DecodeRune, utf8.byte, h1, h2, h3, e0, e1, e2, a0, a1, a2, a3, v, hc]
      · have e0 : (0xF0 + n / 262144) % 256 = 0xF0 + n / 262144 := by omega
        have e1 : (0x80 + n / 4096 % 64) % 256 = 0x80 + n / 4096 % 64 := by omega
        have e2 : (0x80 + n / 64 % 64) % 256 = 0x80 + n / 64 % 64 := by omega
        have e3 : (0x80 + n % 64) % 256 = 0x80 + n % 64 := by omega
        have a0 : ¬ (0xF0 + n / 262144 < 0x80) := by omega
        have a1 : ¬ (0xC2 ≤ 0xF0 + n / 262144 ∧ 0xF0 + n / 262144 ≤ 0xDF) := by omega
        have a2 : ¬ (0xE0 ≤ 0xF0 + n / 262144 ∧ 0xF0 + n / 262144 ≤ 0xEF) := by omega
        have a3 : 0xF0 ≤ 0xF0 + n / 262144 ∧ 0xF0 + n / 262144 ≤ 0xF4 := by omega
        have a4 : utf8.acceptLo (0xF0 + n / 262144) ≤ 0x80 + n / 4096 % 64 ∧
            0x80 + n / 4096 % 64 ≤ utf8.acceptHi (0xF0 + n / 262144) ∧
            0x80 ≤ 0x80 + n / 64 % 64 ∧ 0x80 + n / 64 % 64 ≤ 0xBF ∧
            0x80 ≤ 0x80 + n % 64 ∧ 0x80 + n % 64 ≤ 0xBF := by
          simp only [utf8.acceptLo, utf8.acceptHi]
          split_ifs <;> omega
        have v : n / 262144 * 262144 + n / 4096 % 64 * 4096 + n / 64 % 64 * 64 + n % 64 =
            n := by omega
        simp [utf8.DecodeRune, utf8.byte, h1, h2, h3, e0, e1, e2, e3, a0, a1, a2, a3, a4, v,
          hc]

theorem runes_skip (bs rest : GoString) :
    utf8.runes bs.length (bs ++ rest) = utf8.runes 0 rest := by
  induction bs with
  | nil => rfl
  | cons b bs ih => simpa [utf8.runes] using ih

theorem encodeRune_ne_nil (c : Char) : ∃ b bs, utf8.EncodeRune c = b :: bs := by
  unfold utf8.EncodeRune
  simp only
  split
  · exact ⟨_, _, rfl⟩
  · split
    · exact ⟨_, _, rfl⟩
    · split <;> exact ⟨_, _, rfl⟩

/-- Reading the runes of the encoding of a text gives the text back. -/
theorem runes_encode (t : List Char) : utf8.runes 0 (utf8.encode t) = t := by
  induction t with
  | nil => rfl
  | cons c cs ih =>
    obtain ⟨b, bs, hb⟩ := encodeRune_ne_nil c
    have hd := decodeRune_encodeRune c (utf8.encode cs)
    simp only [utf8.encode, hb, List.cons_append] at hd ⊢
    simp only [utf8.runes, hd, List.length_cons, Nat.add_sub_cancel]
    rw [runes_skip, ih]

theorem toValidUTF8_go (t : String) : json.toValidUTF8 (go t) = t := by
  simp only [json.toValidUTF8, go, runes_encode]

theorem coerce_go (t : String) : json.coerce (go t) = go t := by
  simp only [json.coerce, toValidUTF8_go]

/-- A string that is valid UTF-8 is not changed by the codec. -/
theorem coerce_of_valid {s : GoString} (h : utf8.ValidString s) : json.coerce s = s := by
  obtain ⟨t, rfl⟩ := h
  exact coerce_go t

theorem toValidUTF8_coerce (s : GoString) :
    json.toValidUTF8 (json.coerce s) = json.toValidUTF8 s := by
  simp only [json.coerce, toValidUTF8_go]

theorem coerce_coerce (s : GoString) : json.coerce (json.coerce s) = json.coerce s := by
  simp only [json.coerce, toValidUTF8_go]

theorem coerce_nil : json.coerce [] = [] := rfl

/-! ## The codec: decoding what `json.Marshal` wrote -/

theorem decodeInt_val (n old : GoInt) : json.decodeInt (.int n.val) old = .ok n := by
  simp [json.decodeInt, n.property]

theorem unmarshal_marshal_farmer (f : Farmer) :
    (json.Unmarshal (.doc (.obj (GoStruct.members f))) : Except Error Farmer) =
      .ok f.coerce := rfl

theorem unmarshal_marshal_company (c : Company) :
    (json.Unmarshal (.doc (.obj (GoStruct.members c))) : Except Error Company) =
      .ok c.coerce := rfl

theorem unmarshal_marshal_crop (c : Crop) :
    (json.Unmarshal (.doc (.obj (GoStruct.members c))) : Except Error Crop) =
      .ok c.coerce := by
  simp +decide [json.Unmarshal, json.decodeStruct, json.decodeObject, GoStruct.setField,
    GoStruct.members, GoStruct.zero, json.decodeString, decodeInt_val, Except.map,
    Crop.coerce, json.coerce]

theorem decodeStruct_members_bidder (b : Bidder) :
    json.decodeStruct (.obj (GoStruct.members b)) (GoStruct.zero : Bidder) = .ok b.coerce := by
  simp +decide [json.decodeStruct, json.decodeObject, GoStruct.setField,
    GoStruct.members, GoStruct.zero, json.decodeString, decodeInt_val, Except.map,
    Bidder.coerce, json.coerce]

theorem decodeElems_members (l : List Bidder) :
    (json.decodeElems (l.map fun b => Json.obj (GoStruct.members b)) [] :
      Except JsonError (List Bidder)) = .ok (l.map Bidder.coerce) := by
  induction l with
  | nil => rfl
  | cons b rest ih => simp [json.decodeElems, decodeStruct_members_bidder, ih]

theorem decodeSlice_biddersJson (s : Option (List Bidder)) :
    (json.decodeSlice (biddersJson s) none : Except JsonError (Option (List Bidder))) =
      .ok (s.map fun l => l.map Bidder.coerce) := by
  cases s with
  | none => rfl
  | some l => simp [biddersJson, json.decodeSlice, decodeElems_members]

theorem unmarshal_marshal_bid (b : Bid) :
    (json.Unmarshal (.doc (.obj (GoStruct.members b))) : Except Error Bid) =
      .ok b.coerce := by
  simp +decide [json.Unmarshal, json.decodeStruct, json.decodeObject, GoStruct.setField,
    GoStruct.members, GoStruct.zero, json.decodeString, decodeInt_val, Except.map,
    decodeSlice_biddersJson, Bid.coerce, json.coerce]

/-! ## The codec: a decoded record is written back as it is -/

theorem members_coerce_farmer (f : Farmer) :
    GoStruct.members f.coerce = GoStruct.members f := by
  simp [GoStruct.members, Farmer.coerce, toValidUTF8_coerce]

theorem members_coerce_company (c : Company) :
    GoStruct.members c.coerce = GoStruct.members c := by
  simp [GoStruct.members, Company.coerce, toValidUTF8_coerce]

theorem members_coerce_crop (c : Crop) :
    GoStruct.members c.coerce = GoStruct.members c := by
  simp [GoStruct.members, Crop.coerce, toValidUTF8_coerce]

theorem members_coerce_bidder (b : Bidder) :
    GoStruct.members b.coerce = GoStruct.members b := by
  simp [GoStruct.members, Bidder.coerce, toValidUTF8_coerce]

theorem biddersJson_coerce (s : Option (List Bidder)) :
    biddersJson (s.map fun l => l.map Bidder.coerce) = biddersJson s := by
  cases s with
  | none => rfl
  | some l => simp [biddersJson, members_coerce_bidder]

theorem members_coerce_bid (b : Bid) :
    GoStruct.members b.coerce = GoStruct.members b := by
  simp [GoStruct.members, Bid.coerce, toValidUTF8_coerce, biddersJson_coerce]

theorem bidder_coerce_coerce (b : Bidder) : b.coerce.coerce = b.coerce := by
  simp [Bidder.coerce, coerce_coerce]

/-! ## The codec: what is decoded is valid UTF-8 -/

theorem decodeString_fixed {v : Json} {old s : GoString}
    (h : json.decodeString v old = .ok s) (hold : json.coerce old = old) :
    json.coerce s = s := by
  cases v <;> simp [json.decodeString] at h
  · subst h; exact hold
  · subst h; exact coerce_go _

theorem decodeObject_keeps {α : Type} [GoStruct α] (P : α → Prop)
    (hset : ∀ (a a' : α) (k : String) (v : Json), P a → GoStruct.setField a k v = .ok a' →
      P a') :
    ∀ (kvs : List (String × Json)) (dst r : α), P dst →
      json.decodeObject kvs dst = .ok r → P r := by
  intro kvs
  induction kvs with
  | nil =>
    intro dst r hd h
    simp only [json.decodeObject, Except.ok.injEq] at h
    exact h ▸ hd
  | cons kv rest ih =>
    intro dst r hd h
    obtain ⟨k, v⟩ := kv
    simp only [json.decodeObject] at h
    cases hs : GoStruct.setField dst k v with
    | error e => simp [hs] at h
    | ok dst' =>
      simp only [hs] at h
      exact ih dst' r (hset dst dst' k v hd hs) h

theorem decodeStruct_keeps {α : Type} [GoStruct α] (P : α → Prop)
    (hset : ∀ (a a' : α) (k : String) (v : Json), P a → GoStruct.setField a k v = .ok a' →
      P a')
    {v : Json} {dst r : α} (hd : P dst) (h : json.decodeStruct v dst = .ok r) : P r := by
  cases v <;> simp [json.decodeStruct] at h
  · exact h ▸ hd
  · exact decodeObject_keeps P hset _ dst r hd h

theorem bidder_setField_fixed (a a' : Bidder) (k : String) (v : Json)
    (ha : a.coerce = a) (h : GoStruct.setField a k v = .ok a') : a'.coerce = a' := by
  have h1 : json.coerce a.CompanyName = a.CompanyName := congrArg Bidder.CompanyName ha
  have h2 : json.coerce a.Timestamp = a.Timestamp := congrArg Bidder.Timestamp ha
  simp only [GoStruct.setField] at h
  split at h
  · cases hs : json.decodeString v a.CompanyName with
    | error e => simp [hs, Except.map] at h
    | ok s =>
      simp only [hs, Except.map, Except.ok.injEq] at h
      subst h
      simp [Bidder.coerce, decodeString_fixed hs h1, h2]
  · split at h
    · cases hs : json.decodeInt v a.BidPrice with
      | error e => simp [hs, Except.map] at h
      | ok n =>
        simp only [hs, Except.map, Except.ok.injEq] at h
        subst h
        simp [Bidder.coerce, h1, h2]
    · split at h
      · cases hs : json.decodeString v a.Timestamp with
        | error e => simp [hs, Except.map] at h
        | ok s =>
          simp only [hs, Except.map, Except.ok.injEq] at h
          subst h
          simp [Bidder.coerce, decodeString_fixed hs h2, h1]
      · simp only [Except.ok.injEq] at h
        exact h ▸ ha

theorem decodeElems_fixed : ∀ (xs : List Json) (olds l : List Bidder),
    (∀ x ∈ olds, x.coerce = x) → json.decodeElems xs olds = .ok l →
    ∀ x ∈ l, x.coerce = x := by
  intro xs
  induction xs with
  | nil =>
    intro olds l _ h
    simp only [json.decodeElems, Except.ok.injEq] at h
    subst h
    intro x hx
    cases hx
  | cons v rest ih =>
    intro olds l holds h
    simp only [json.decodeElems] at h
    cases hd : json.decodeStruct v (olds.head?.getD (GoStruct.zero : Bidder)) with
    | error e => simp [hd] at h
    | ok x0 =>
      simp only [hd] at h
      cases hr : json.decodeElems rest olds.tail with
      | error e => simp [hr] at h
      | ok xs' =>
        simp only [hr, Except.ok.injEq] at h
        subst h
        have hhead : (olds.head?.getD (GoStruct.zero : Bidder)).coerce =
            olds.head?.getD (GoStruct.zero : Bidder) := by
          cases olds with
          | nil => rfl
          | cons o os => exact holds o (List.mem_cons_self _ _)
        have h0 : x0.coerce = x0 := decodeStruct_keeps (fun b : Bidder => b.coerce = b)
          bidder_setField_fixed hhead hd
        have hrest := ih olds.tail xs' (fun x hx => holds x (List.mem_of_mem_tail hx)) hr
        intro x hx
        rcases List.mem_cons.mp hx with hx | hx
        · exact hx ▸ h0
        · exact hrest x hx

theorem decodeSlice_fixed {v : Json} {old l : Option (List Bidder)}
    (hold : (old.map fun xs => xs.map Bidder.coerce) = old)
    (h : json.decodeSlice v old = .ok l) :
    (l.map fun xs => xs.map Bidder.coerce) = l := by
  cases v <;> simp [json.decodeSlice] at h
  · subst h; rfl
  · rename_i xs
    cases hd : json.decodeElems xs (old.getD []) with
    | error e => simp [hd] at h
    | ok ys =>
      simp only [hd, Except.ok.injEq] at h
      subst h
      have holds : ∀ x ∈ old.getD [], x.coerce = x := by
        cases old with
        | none => intro x hx; cases hx
        | some os =>
          simp only [Option.map_some', Option.some.injEq] at hold
          intro x hx
          have := List.map_eq_map_iff.mp (hold.trans (List.map_id os).symm) x hx
          simpa using this
      have hys := decodeElems_fixed xs (old.getD []) ys holds hd
      simp only [Option.map_some', Option.some.injEq]
      calc ys.map Bidder.coerce = ys.map id := List.map_congr_left fun x hx => hys x hx
        _ = ys := List.map_id ys

theorem bid_setField_fixed (a a' : Bid) (k : String) (v : Json)
    (ha : a.coerce = a) (h : GoStruct.setField a k v = .ok a') : a'.coerce = a' := by
  have h1 : json.coerce a.CropID = a.CropID := congrArg Bid.CropID ha
  have h2 : json.coerce a.CropName = a.CropName := congrArg Bid.CropName ha
  have h3 : json.coerce a.FarmerAadhar = a.FarmerAadhar := congrArg Bid.FarmerAadhar ha
  have h4 : json.coerce a.Date = a.Date := congrArg Bid.Date ha
  have h5 : json.coerce a.Expiry = a.Expiry := congrArg Bid.Expiry ha
  have h6 : (a.Bidders.map fun xs => xs.map Bidder.coerce) = a.Bidders :=
    congrArg Bid.Bidders ha
  simp only [GoStruct.setField] at h
  split at h
  · cases hs : json.decodeString v a.CropID with
    | error e => simp [hs, Except.map] at h
    | ok s =>
      simp only [hs, Except.map, Except.ok.injEq] at h
      subst h
      simp [Bid.coerce, decodeString_fixed hs h1, h2, h3, h4, h5, h6]
  · split at h
    · cases hs : json.decodeString v a.CropName with
      | error e => simp [hs, Except.map] at h
      | ok s =>
        simp only [hs, Except.map, Except.ok.injEq] at h
        subst h
        simp [Bid.coerce, decodeString_fixed hs h2, h1, h3, h4, h5, h6]
    · split at h
      · cases hs : json.decodeString v a.FarmerAadhar with
        | error e => simp [hs, Except.map] at h
        | ok s =>
          simp only [hs, Except.map, Except.ok.injEq] at h
          subst h
          simp [Bid.coerce, decodeString_fixed hs h3, h1, h2, h4, h5, h6]
      · split at h
        · cases hs : json.decodeInt v a.BasePrice with
          | error e => simp [hs, Except.map] at h
          | ok n =>
            simp only [hs, Except.map, Except.ok.injEq] at h
            subst h
            simp [Bid.coerce, h1, h2, h3, h4, h5, h6]
        · split at h
          · cases hs : json.decodeString v a.Date with
            | error e => simp [hs, Except.map] at h
            | ok s =>
              simp only [hs, Except.map, Except.ok.injEq] at h
              subst h
              simp [Bid.coerce, decodeString_fixed hs h4, h1, h2, h3, h5, h6]
          · split at h
            · cases hs : json.decodeString v a.Expiry with
              | error e => simp [hs, Except.map] at h
              | ok s =>
                simp only [hs, Except.map, Except.ok.injEq] at h
                subst h
                simp [Bid.coerce, decodeString_fixed hs h5, h1, h2, h3, h4, h6]
            · split at h
              · cases hs : json.decodeSlice v a.Bidders with
                | error e => simp [hs, Except.map] at h
                | ok l =>
                  simp only [hs, Except.map, Except.ok.injEq] at h
                  subst h
                  simp [Bid.coerce, decodeSlice_fixed h6 hs, h1, h2, h3, h4, h5]
              · simp only [Except.ok.injEq] at h
                exact h ▸ ha

/-- A bid that `json.Unmarshal` returned holds valid UTF-8 only: the codec returns it as it
is. -/
theorem unmarshal_bid_fixed {data : Bytes} {b : Bid} (h : json.Unmarshal data = .ok b) :
    b.coerce = b := by
  cases data with
  | malformed raw => simp [json.Unmarshal] at h
  | doc j =>
    simp only [json.Unmarshal] at h
    cases hd : json.decodeStruct j (GoStruct.zero : Bid) with
    | error e => simp [hd] at h
    | ok r =>
      simp only [hd, Except.ok.injEq] at h
      subst h
      exact decodeStruct_keeps (fun b : Bid => b.coerce = b) bid_setField_fixed rfl hd

/-! ## Keys -/

theorem go_BID_ne_nil : go "BID_" ≠ [] := by decide

theorem bid_key_ne_nil (c : GoString) : go "BID_" ++ c ≠ [] := by
  have h : go "BID_" = [66, 73, 68, 95] := by decide
  simp [h]

theorem bid_key_inj {c c' : GoString} (h : go "BID_" ++ c' = go "BID_" ++ c) : c' = c :=
  List.append_cancel_left h

theorem bid_key_ne_seed (c : GoString) :
    go "BID_" ++ c ∉ [go "farmer1", go "farmer2", go "farmer3", go "farmer4"] := by
  have h : go "BID_" = [66, 73, 68, 95] := by decide
  have h1 : go "farmer1" = [102, 97, 114, 109, 101, 114, 49] := by decide
  have h2 : go "farmer2" = [102, 97, 114, 109, 101, 114, 50] := by decide
  have h3 : go "farmer3" = [102, 97, 114, 109, 101, 114, 51] := by decide
  have h4 : go "farmer4" = [102, 97, 114, 109, 101, 114, 52] := by decide
  simp [h, h1, h2, h3, h4]

theorem bid_key_ne_self (c : GoString) : c ≠ go "BID_" ++ c := by
  intro h
  have := congrArg List.length h
  have h4 : (go "BID_").length = 4 := by decide
  simp only [List.length_append, h4] at this
  omega

/-! ## What each call does to the store -/

theorem putState_of_ne {key : GoString} (h : key ≠ []) (ctx : World) (value : Bytes) :
    PutState ctx key value = .ok (insert key value ctx) := by
  simp [PutState, h]

theorem putState_nil (ctx : World) (value : Bytes) :
    PutState ctx [] value = .error (.stub (go "key must not be an empty string")) := rfl

theorem createFarmer_of_absent {ctx : World} {id : GoString} (h : lookup id ctx = none)
    (hid : id ≠ []) (name aadhar : GoString) :
    CreateFarmer ctx id name aadhar = .ok (insert id
      (.doc (.obj (GoStruct.members ({ ID := id, Name := name, Aadhar := aadhar } : Farmer))))
      ctx) := by
  simp [CreateFarmer, FarmerExists, GetState, h, json.Marshal, PutState, hid]

theorem createFarmer_of_present {ctx : World} {id : GoString} {v : Bytes}
    (h : lookup id ctx = some v) (name aadhar : GoString) :
    CreateFarmer ctx id name aadhar =
      .error (.errorf (go "the farmer " ++ id ++ go " already exists")) := by
  simp [CreateFarmer, FarmerExists, GetState, h]

theorem createFarmer_nil {ctx : World} (h : lookup [] ctx = none) (name aadhar : GoString) :
    CreateFarmer ctx [] name aadhar =
      .error (.stub (go "key must not be an empty string")) := by
  simp [CreateFarmer, FarmerExists, GetState, h, json.Marshal, PutState]

theorem createCompany_of_absent {ctx : World} {id : GoString} (h : lookup id ctx = none)
    (hid : id ≠ []) (name gst : GoString) :
    CreateCompany ctx id name gst = .ok (insert id
      (.doc (.obj (GoStruct.members ({ ID := id, Name := name, GST := gst } : Company))))
      ctx) := by
  simp [CreateCompany, CompanyExists, GetState, h, json.Marshal, PutState, hid]

theorem createCompany_of_present {ctx : World} {id : GoString} {v : Bytes}
    (h : lookup id ctx = some v) (name gst : GoString) :
    CreateCompany ctx id name gst =
      .error (.errorf (go "the company " ++ id ++ go " already exists")) := by
  simp [CreateCompany, CompanyExists, GetState, h]

theorem createCompany_nil {ctx : World} (h : lookup [] ctx = none) (name gst : GoString) :
    CreateCompany ctx [] name gst =
      .error (.stub (go "key must not be an empty string")) := by
  simp [CreateCompany, CompanyExists, GetState, h, json.Marshal, PutState]

theorem updateFarmer_of_present {ctx : World} {id : GoString} {v : Bytes}
    (h : lookup id ctx = some v) (hid : id ≠ []) (name aadhar : GoString) :
    UpdateFarmer ctx id name aadhar = .ok (insert id
      (.doc (.obj (GoStruct.members ({ ID := id, Name := name, Aadhar := aadhar } : Farmer))))
      ctx) := by
  simp [UpdateFarmer, FarmerExists, GetState, h, json.Marshal, PutState, hid]

theorem updateFarmer_of_absent {ctx : World} {id : GoString} (h : lookup id ctx = none)
    (name aadhar : GoString) :
    UpdateFarmer ctx id name aadhar =
      .error (.errorf (go "the farmer " ++ id ++ go " does not exist")) := by
  simp [UpdateFarmer, FarmerExists, GetState, h]

theorem updateFarmer_nil {ctx : World} {v : Bytes} (h : lookup [] ctx = some v)
    (name aadhar : GoString) :
    UpdateFarmer ctx [] name aadhar =
      .error (.stub (go "key must not be an empty string")) := by
  simp [UpdateFarmer, FarmerExists, GetState, h, json.Marshal, PutState]

theorem updateCompany_of_present {ctx : World} {id : GoString} {v : Bytes}
    (h : lookup id ctx = some v) (hid : id ≠ []) (name gst : GoString) :
    UpdateCompany ctx id name gst = .ok (insert id
      (.doc (.obj (GoStruct.members ({ ID := id, Name := name, GST := gst } : Company))))
      ctx) := by
  simp [UpdateCompany, CompanyExists, GetState, h, json.Marshal, PutState, hid]

theorem updateCompany_of_absent {ctx : World} {id : GoString} (h : lookup id ctx = none)
    (name gst : GoString) :
    UpdateCompany ctx id name gst =
      .error (.errorf (go "the company " ++ id ++ go " does not exist")) := by
  simp [UpdateCompany, CompanyExists, GetState, h]

theorem updateCompany_nil {ctx : World} {v : Bytes} (h : lookup [] ctx = some v)
    (name gst : GoString) :
    UpdateCompany ctx [] name gst =
      .error (.stub (go "key must not be an empty string")) := by
  simp [UpdateCompany, CompanyExists, GetState, h, json.Marshal, PutState]

theorem deleteFarmer_of_present {ctx : World} {id : GoString} {v : Bytes}
    (h : lookup id ctx = some v) : DeleteFarmer ctx id = .ok (erase id ctx) := by
  simp [DeleteFarmer, FarmerExists, GetState, h, DelState]

theorem deleteFarmer_of_absent {ctx : World} {id : GoString} (h : lookup id ctx = none) :
    DeleteFarmer ctx id =
      .error (.errorf (go "the farmer " ++ id ++ go " does not exist")) := by
  simp [DeleteFarmer, FarmerExists, GetState, h]

theorem deleteCompany_of_present {ctx : World} {id : GoString} {v : Bytes}
    (h : lookup id ctx = some v) : DeleteCompany ctx id = .ok (erase id ctx) := by
  simp [DeleteCompany, CompanyExists, GetState, h, DelState]

theorem deleteCompany_of_absent {ctx : World} {id : GoString} (h : lookup id ctx = none) :
    DeleteCompany ctx id =
      .error (.errorf (go "the company " ++ id ++ go " does not exist")) := by
  simp [DeleteCompany, CompanyExists, GetState, h]

theorem createCrop_of_ne {id : GoString} (hid : id ≠ []) (ctx : World) (name : GoString)
    (price : GoInt) (lastUpdate : GoString) :
    CreateCrop ctx id name price lastUpdate = .ok (insert id
      (.doc (.obj (GoStruct.members
        ({ ID := id, Name := name, Price := price, LastUpdate := lastUpdate } : Crop))))
      ctx) := by
  simp [CreateCrop, json.Marshal, PutState, hid]

theorem createCrop_nil (ctx : World) (name : GoString) (price : GoInt)
    (lastUpdate : GoString) :
    CreateCrop ctx [] name price lastUpdate =
      .error (.stub (go "key must not be an empty string")) := rfl

theorem createBid_eq (ctx : World) (cropId cropName farmerAadhar : GoString)
    (basePrice : GoInt) (date expiry : GoString) :
    CreateBid ctx cropId cropName farmerAadhar basePrice date expiry =
      .ok (insert (go "BID_" ++ cropId)
        (.doc (.obj (GoStruct.members
          ({ CropID := cropId, CropName := cropName, FarmerAadhar := farmerAadhar,
             BasePrice := basePrice, Date := date, Expiry := expiry,
             Bidders := some [] } : Bid))))
        ctx) := by
  simp [CreateBid, json.Marshal, PutState, go_BID_ne_nil]

theorem makeBid_of_absent {ctx : World} {cropId : GoString}
    (h : lookup (go "BID_" ++ cropId) ctx = none) (companyName : GoString) (bidPrice : GoInt)
    (timestamp : GoString) :
    MakeBid ctx cropId companyName bidPrice timestamp =
      .error (.errorf (go "bid for crop " ++ cropId ++ go " not found")) := by
  simp [MakeBid, GetBid, GetState, h]

theorem makeBid_of_bid {ctx : World} {cropId : GoString} {data : Bytes} {bid : Bid}
    (h : lookup (go "BID_" ++ cropId) ctx = some data) (hbid : json.Unmarshal data = .ok bid)
    (companyName : GoString) (bidPrice : GoInt) (timestamp : GoString) :
    MakeBid ctx cropId companyName bidPrice timestamp =
      .ok (insert (go "BID_" ++ cropId)
        (.doc (.obj (GoStruct.members
          { bid with
            Bidders := append bid.Bidders
              ({ CompanyName := companyName, BidPrice := bidPrice,
                 Timestamp := timestamp } : Bidder) })))
        ctx) := by
  simp [MakeBid, GetBid, GetState, h, hbid, json.Marshal, PutState, go_BID_ne_nil]

theorem makeBid_of_error {ctx : World} {cropId : GoString} {data : Bytes} {err : Error}
    (h : lookup (go "BID_" ++ cropId) ctx = some data)
    (hbid : (json.Unmarshal data : Except Error Bid) = .error err)
    (companyName : GoString) (bidPrice : GoInt) (timestamp : GoString) :
    MakeBid ctx cropId companyName bidPrice timestamp = .error err := by
  simp [MakeBid, GetBid, GetState, h, hbid]

theorem initLedger_eq (ctx : World) :
    InitLedger ctx = .ok
      (insert (go "farmer4") (.doc (.obj (GoStruct.members
        ({ ID := go "farmer4", Name := go "Geeta Verma",
           Aadhar := go "456789012345" } : Farmer))))
      (insert (go "farmer3") (.doc (.obj (GoStruct.members
        ({ ID := go "farmer3", Name := go "Amit Patel",
           Aadhar := go "345678901234" } : Farmer))))
      (insert (go "farmer2") (.doc (.obj (GoStruct.members
        ({ ID := go "farmer2", Name := go "Sunita Sharma",
           Aadhar := go "234567890123" } : Farmer))))
      (insert (go "farmer1") (.doc (.obj (GoStruct.members
        ({ ID := go "farmer1", Name := go "Ravi Kumar",
           Aadhar := go "123456789012" } : Farmer))))
      ctx)))) := rfl

theorem commit_ok (ctx ctx' : World) : commit ctx (.ok ctx') = ctx' := rfl

theorem commit_error (ctx : World) (err : Error) : commit ctx (.error err) = ctx := rfl

/-! ## The key order is kept -/

theorem mem_insert {key : GoString} {value : Bytes} {l : List (GoString × Bytes)}
    {e : GoString × Bytes} (h : e ∈ insert key value l) : e = (key, value) ∨ e ∈ l := by
  induction l with
  | nil =>
    simp only [insert, List.mem_singleton] at h
    exact Or.inl h
  | cons e0 rest ih =>
    obtain ⟨k, v⟩ := e0
    simp only [insert] at h
    split at h
    · rcases List.mem_cons.mp h with h | h
      · exact Or.inl h
      · exact Or.inr (List.mem_cons_of_mem _ h)
    · split at h
      · rcases List.mem_cons.mp h with h | h
        · exact Or.inl h
        · exact Or.inr h
      · rcases List.mem_cons.mp h with h | h
        · exact Or.inr (h ▸ List.mem_cons_self _ _)
        · rcases ih h with h | h
          · exact Or.inl h
          · exact Or.inr (List.mem_cons_of_mem _ h)

theorem mem_erase {key : GoString} {l : List (GoString × Bytes)} {e : GoString × Bytes}
    (h : e ∈ erase key l) : e ∈ l := by
  induction l with
  | nil => simp [erase] at h
  | cons e0 rest ih =>
    obtain ⟨k, v⟩ := e0
    simp only [erase] at h
    split at h
    · exact List.mem_cons_of_mem _ h
    · rcases List.mem_cons.mp h with h | h
      · exact h ▸ List.mem_cons_self _ _
      · exact List.mem_cons_of_mem _ (ih h)

theorem insert_ascending (key : GoString) (value : Bytes) {l : List (GoString × Bytes)}
    (h : Ascending l) : Ascending (insert key value l) := by
  induction l with
  | nil => simp [insert, Ascending]
  | cons e0 rest ih =>
    obtain ⟨k, v⟩ := e0
    obtain ⟨hk, hrest⟩ := List.pairwise_cons.mp h
    simp only [insert]
    split
    · next heq =>
      subst heq
      exact List.pairwise_cons.mpr ⟨hk, hrest⟩
    · split
      · next hlt =>
        refine List.pairwise_cons.mpr ⟨?_, h⟩
        intro e he
        rcases List.mem_cons.mp he with he | he
        · subst he; exact hlt
        · exact KeyLt.trans hlt (hk e he)
      · next hne hnlt =>
        refine List.pairwise_cons.mpr ⟨?_, ih hrest⟩
        intro e he
        rcases mem_insert he with he | he
        · subst he; exact KeyLt.total hnlt hne
        · exact hk e he

theorem erase_ascending (key : GoString) {l : List (GoString × Bytes)} (h : Ascending l) :
    Ascending (erase key l) := by
  induction l with
  | nil => simp [erase, Ascending]
  | cons e0 rest ih =>
    obtain ⟨k, v⟩ := e0
    obtain ⟨hk, hrest⟩ := List.pairwise_cons.mp h
    simp only [erase]
    split
    · exact hrest
    · exact List.pairwise_cons.mpr ⟨fun e he => hk e (mem_erase he), ih hrest⟩

theorem lookup_eq_none_of_ne {key : GoString} {l : List (GoString × Bytes)}
    (h : ∀ e ∈ l, e.1 ≠ key) : lookup key l = none := by
  induction l with
  | nil => rfl
  | cons e0 rest ih =>
    obtain ⟨k, v⟩ := e0
    have hk : key ≠ k := fun e => h (k, v) (List.mem_cons_self _ _) e.symm
    simp only [lookup, hk, if_false]
    exact ih fun e he => h e (List.mem_cons_of_mem _ he)

theorem lookup_erase_self (key : GoString) {l : List (GoString × Bytes)} (h : Ascending l) :
    lookup key (erase key l) = none := by
  induction l with
  | nil => rfl
  | cons e0 rest ih =>
    obtain ⟨k, v⟩ := e0
    obtain ⟨hk, hrest⟩ := List.pairwise_cons.mp h
    simp only [erase]
    split
    · next heq =>
      subst heq
      exact lookup_eq_none_of_ne fun e he heq => KeyLt.irrefl key (heq ▸ hk e he)
    · next hne => simp only [lookup, hne, if_false]; exact ih hrest

/-! ## More on the store -/

theorem lookup_insert (key key' : GoString) (value : Bytes) (l : List (GoString × Bytes)) :
    lookup key' (insert key value l) = if key' = key then some value else lookup key' l := by
  by_cases h : key' = key
  · subst h; simp [lookup_insert_self]
  · simp [h, lookup_insert_ne h]

theorem mem_of_lookup {key : GoString} {value : Bytes} {l : List (GoString × Bytes)}
    (h : lookup key l = some value) : (key, value) ∈ l := by
  induction l with
  | nil => simp [lookup] at h
  | cons e0 rest ih =>
    obtain ⟨k, v⟩ := e0
    simp only [lookup] at h
    split at h
    · next hk =>
      simp only [Option.some.injEq] at h
      subst hk; subst h
      exact List.mem_cons_self _ _
    · exact List.mem_cons_of_mem _ (ih h)

theorem lookup_of_mem {key : GoString} {value : Bytes} {l : List (GoString × Bytes)}
    (hl : Ascending l) (h : (key, value) ∈ l) : lookup key l = some value := by
  induction l with
  | nil => simp at h
  | cons e0 rest ih =>
    obtain ⟨k, v⟩ := e0
    obtain ⟨hk, hrest⟩ := List.pairwise_cons.mp hl
    rcases List.mem_cons.mp h with h | h
    · simp only [Prod.mk.injEq] at h
      obtain ⟨h1, h2⟩ := h
      subst h1; subst h2
      simp [lookup]
    · have hne : key ≠ k := fun e => KeyLt.irrefl k (by simpa [e] using hk _ h)
      simp only [lookup, hne, if_false]
      exact ih hrest h

theorem ascending_ext {l1 l2 : List (GoString × Bytes)} (h1 : Ascending l1) (h2 : Ascending l2)
    (h : ∀ key, lookup key l1 = lookup key l2) : l1 = l2 := by
  induction l1 generalizing l2 with
  | nil =>
    cases l2 with
    | nil => rfl
    | cons e2 r2 =>
      have := h e2.1
      simp [lookup] at this
  | cons e1 r1 ih =>
    obtain ⟨k1, v1⟩ := e1
    cases l2 with
    | nil =>
      have := h k1
      simp [lookup] at this
    | cons e2 r2 =>
      obtain ⟨k2, v2⟩ := e2
      obtain ⟨hk1, hr1⟩ := List.pairwise_cons.mp h1
      obtain ⟨hk2, hr2⟩ := List.pairwise_cons.mp h2
      have hkk : k1 = k2 := by
        by_contra hne
        have a1 : lookup k1 ((k2, v2) :: r2) = some v1 := by
          rw [← h k1]; simp [lookup]
        have a2 : lookup k2 ((k1, v1) :: r1) = some v2 := by
          rw [h k2]; simp [lookup]
        have m1 := mem_of_lookup a1
        have m2 := mem_of_lookup a2
        rcases List.mem_cons.mp m1 with m1 | m1
        · exact hne (by simpa using congrArg Prod.fst m1)
        · rcases List.mem_cons.mp m2 with m2 | m2
          · exact hne (by simpa using (congrArg Prod.fst m2).symm)
          · exact KeyLt.irrefl k1 (KeyLt.trans (hk1 _ m2) (hk2 _ m1))
      subst hkk
      have hvv : v1 = v2 := by
        have := h k1
        simpa [lookup] using this
      subst hvv
      have htail : r1 = r2 := by
        apply ih hr1 hr2
        intro key
        by_cases hkey : key = k1
        · subst hkey
          rw [lookup_eq_none_of_ne fun e he (heq : e.1 = key) =>
              KeyLt.irrefl key (by simpa [heq] using hk1 e he),
            lookup_eq_none_of_ne fun e he (heq : e.1 = key) =>
              KeyLt.irrefl key (by simpa [heq] using hk2 e he)]
        · have := h key
          simpa [lookup, hkey] using this
      rw [htail]

theorem lookup_erase_of_none {key : GoString} (key' : GoString)
    {l : List (GoString × Bytes)} (h : lookup key l = none) :
    lookup key (erase key' l) = none := by
  induction l with
  | nil => rfl
  | cons e0 rest ih =>
    obtain ⟨k, v⟩ := e0
    simp only [lookup] at h
    split at h
    · cases h
    · next hk =>
      simp only [erase]
      split
      · exact h
      · simp only [lookup, hk, if_false]
        exact ih h

theorem puts_ascending (ws : List (GoString × Bytes)) {ctx : World} (h : Ascending ctx) :
    Ascending (ws.foldl (fun c w => insert w.1 w.2 c) ctx) := by
  induction ws generalizing ctx with
  | nil => exact h
  | cons w rest ih => exact ih (insert_ascending w.1 w.2 h)

theorem lookup_puts_ne {key : GoString} (ws : List (GoString × Bytes)) (ctx : World)
    (h : ∀ w ∈ ws, w.1 ≠ key) :
    lookup key (ws.foldl (fun c w => insert w.1 w.2 c) ctx) = lookup key ctx := by
  induction ws generalizing ctx with
  | nil => rfl
  | cons w rest ih =>
    simp only [List.foldl_cons]
    rw [ih _ fun w' hw' => h w' (List.mem_cons_of_mem _ hw'),
      lookup_insert_ne (h w (List.mem_cons_self _ _)).symm]

theorem forall_insert {P : GoString × Bytes → Prop} {ctx : World} {key : GoString}
    {value : Bytes} (h : ∀ e ∈ ctx, P e) (hv : P (key, value)) :
    ∀ e ∈ insert key value ctx, P e := by
  intro e he
  rcases mem_insert he with he | he
  · exact he ▸ hv
  · exact h e he

theorem forall_erase {P : GoString × Bytes → Prop} {ctx : World} {key : GoString}
    (h : ∀ e ∈ ctx, P e) : ∀ e ∈ erase key ctx, P e :=
  fun e he => h e (mem_erase he)

theorem forall_puts {P : GoString × Bytes → Prop} (ws : List (GoString × Bytes))
    {ctx : World} (h : ∀ e ∈ ctx, P e) (hw : ∀ w ∈ ws, P w) :
    ∀ e ∈ ws.foldl (fun c w => insert w.1 w.2 c) ctx, P e := by
  induction ws generalizing ctx with
  | nil => exact h
  | cons w rest ih =>
    exact ih (forall_insert h (hw w (List.mem_cons_self _ _)))
      fun w' hw' => hw w' (List.mem_cons_of_mem _ hw')

/-! ## What is stored on a ledger the contract has written -/

theorem farmer_doc_decodes (f : Farmer) :
    DecodesAsEveryKind (.doc (.obj (GoStruct.members f))) :=
  ⟨⟨f.coerce, unmarshal_marshal_farmer f⟩,
   ⟨{ ID := json.coerce f.ID, Name := json.coerce f.Name, GST := [] }, rfl⟩,
   ⟨{ ID := json.coerce f.ID, Name := json.coerce f.Name, Price := GoInt.zero,
      LastUpdate := [] }, rfl⟩,
   ⟨GoStruct.zero, rfl⟩⟩

theorem company_doc_decodes (c : Company) :
    DecodesAsEveryKind (.doc (.obj (GoStruct.members c))) :=
  ⟨⟨{ Aadhar := [], ID := json.coerce c.ID, Name := json.coerce c.Name }, rfl⟩,
   ⟨c.coerce, unmarshal_marshal_company c⟩,
   ⟨{ ID := json.coerce c.ID, Name := json.coerce c.Name, Price := GoInt.zero,
      LastUpdate := [] }, rfl⟩,
   ⟨GoStruct.zero, rfl⟩⟩

theorem crop_doc_decodes (c : Crop) :
    DecodesAsEveryKind (.doc (.obj (GoStruct.members c))) :=
  ⟨⟨{ Aadhar := [], ID := json.coerce c.ID, Name := json.coerce c.Name }, rfl⟩,
   ⟨{ ID := json.coerce c.ID, Name := json.coerce c.Name, GST := [] }, rfl⟩,
   ⟨c.coerce, unmarshal_marshal_crop c⟩,
   ⟨GoStruct.zero, rfl⟩⟩

theorem bid_doc_decodes (b : Bid) :
    DecodesAsEveryKind (.doc (.obj (GoStruct.members b))) :=
  ⟨⟨GoStruct.zero, rfl⟩, ⟨GoStruct.zero, rfl⟩, ⟨GoStruct.zero, rfl⟩,
   ⟨b.coerce, unmarshal_marshal_bid b⟩⟩

theorem farmer_doc_bidKeyed (key : GoString) (f : Farmer) :
    BidKeyed (key, .doc (.obj (GoStruct.members f))) := by
  intro bid h hne
  have h0 : (json.Unmarshal (.doc (.obj (GoStruct.members f))) : Except Error Bid) =
      .ok GoStruct.zero := rfl
  have : bid = GoStruct.zero := (Except.ok.inj (h.symm.trans h0))
  subst this
  exact absurd rfl hne

theorem company_doc_bidKeyed (key : GoString) (c : Company) :
    BidKeyed (key, .doc (.obj (GoStruct.members c))) := by
  intro bid h hne
  have h0 : (json.Unmarshal (.doc (.obj (GoStruct.members c))) : Except Error Bid) =
      .ok GoStruct.zero := rfl
  have : bid = GoStruct.zero := (Except.ok.inj (h.symm.trans h0))
  subst this
  exact absurd rfl hne

theorem crop_doc_bidKeyed (key : GoString) (c : Crop) :
    BidKeyed (key, .doc (.obj (GoStruct.members c))) := by
  intro bid h hne
  have h0 : (json.Unmarshal (.doc (.obj (GoStruct.members c))) : Except Error Bid) =
      .ok GoStruct.zero := rfl
  have : bid = GoStruct.zero := (Except.ok.inj (h.symm.trans h0))
  subst this
  exact absurd rfl hne

theorem bid_doc_bidKeyed {key : GoString} {b : Bid}
    (hkey : json.coerce b.CropID ≠ [] → key = go "BID_" ++ json.coerce b.CropID) :
    BidKeyed (key, .doc (.obj (GoStruct.members b))) := by
  intro bid h hne
  have : bid = b.coerce := (Except.ok.inj (h.symm.trans (unmarshal_marshal_bid b)))
  subst this
  exact hkey hne

theorem seed_keys_ne_nil :
    ∀ k ∈ [go "farmer1", go "farmer2", go "farmer3", go "farmer4"], k ≠ [] := by
  decide

/-- The writes of a call: the ledger after the call is the ledger before it with some
entries put, or with one key deleted.  Every entry put has a non-empty key, which the call
may create or which held a value, and a value that decodes as every kind; it is stored
under the key of its bid when the ledger was so before. -/
theorem exec_cases (ctx : World) (op : Op) :
    (∃ ws : List (GoString × Bytes),
      exec ctx op = ws.foldl (fun c w => insert w.1 w.2 c) ctx ∧
      ∀ w ∈ ws, w.1 ≠ [] ∧ (w.1 ∈ op.createsAt ∨ lookup w.1 ctx ≠ none) ∧
        DecodesAsEveryKind w.2 ∧
        (op.ValidBidKey → (∀ e ∈ ctx, BidKeyed e) → BidKeyed w)) ∨
    ∃ key, exec ctx op = erase key ctx := by
  have unchanged : exec ctx op = ctx → ∃ ws : List (GoString × Bytes),
      exec ctx op = ws.foldl (fun c w => insert w.1 w.2 c) ctx ∧
      ∀ w ∈ ws, w.1 ≠ [] ∧ (w.1 ∈ op.createsAt ∨ lookup w.1 ctx ≠ none) ∧
        DecodesAsEveryKind w.2 ∧
        (op.ValidBidKey → (∀ e ∈ ctx, BidKeyed e) → BidKeyed w) :=
    fun e => ⟨[], e, fun w hw => by cases hw⟩
  have one : ∀ (key : GoString) (value : Bytes), exec ctx op = insert key value ctx →
      key ≠ [] → (key ∈ op.createsAt ∨ lookup key ctx ≠ none) → DecodesAsEveryKind value →
      (op.ValidBidKey → (∀ e ∈ ctx, BidKeyed e) → BidKeyed (key, value)) →
      ∃ ws : List (GoString × Bytes),
        exec ctx op = ws.foldl (fun c w => insert w.1 w.2 c) ctx ∧
        ∀ w ∈ ws, w.1 ≠ [] ∧ (w.1 ∈ op.createsAt ∨ lookup w.1 ctx ≠ none) ∧
          DecodesAsEveryKind w.2 ∧
          (op.ValidBidKey → (∀ e ∈ ctx, BidKeyed e) → BidKeyed w) := by
    intro key value e h1 h2 h3 h4
    refine ⟨[(key, value)], e, ?_⟩
    intro w hw
    rw [List.mem_singleton] at hw
    subst hw
    exact ⟨h1, h2, h3, h4⟩
  cases op with
  | InitLedger =>
    left
    refine ⟨[(go "farmer1", _), (go "farmer2", _), (go "farmer3", _), (go "farmer4", _)],
      (congrArg (commit ctx) (initLedger_eq ctx)).trans rfl, ?_⟩
    intro w hw
    have hk : w.1 ∈ [go "farmer1", go "farmer2", go "farmer3", go "farmer4"] ∧
        ∃ f : Farmer, w.2 = .doc (.obj (GoStruct.members f)) := by
      rcases List.mem_cons.mp hw with h | hw
      · exact h ▸ ⟨List.mem_cons_self _ _, _, rfl⟩
      · rcases List.mem_cons.mp hw with h | hw
        · exact h ▸ ⟨List.mem_cons_of_mem _ (List.mem_cons_self _ _), _, rfl⟩
        · rcases List.mem_cons.mp hw with h | hw
          · exact h ▸ ⟨List.mem_cons_of_mem _ (List.mem_cons_of_mem _
              (List.mem_cons_self _ _)), _, rfl⟩
          · rw [List.mem_singleton] at hw
            exact hw ▸ ⟨List.mem_cons_of_mem _ (List.mem_cons_of_mem _
              (List.mem_cons_of_mem _ (List.mem_cons_self _ _))), _, rfl⟩
    obtain ⟨hk1, f, hf⟩ := hk
    refine ⟨seed_keys_ne_nil _ hk1, Or.inl hk1, hf ▸ farmer_doc_decodes f, fun _ _ => ?_⟩
    have := farmer_doc_bidKeyed w.1 f
    rw [← hf] at this
    exact this
  | CreateFarmer id name aadhar =>
    left
    cases hid : lookup id ctx with
    | some v =>
      exact unchanged (congrArg (commit ctx) (createFarmer_of_present hid name aadhar))
    | none =>
      by_cases hnil : id = []
      · subst hnil
        exact unchanged (congrArg (commit ctx) (createFarmer_nil hid name aadhar))
      · exact one id _ (congrArg (commit ctx) (createFarmer_of_absent hid hnil name aadhar))
          hnil (Or.inl (List.mem_singleton.mpr rfl)) (farmer_doc_decodes _)
          fun _ _ => farmer_doc_bidKeyed _ _
  | UpdateFarmer id name aadhar =>
    left
    cases hid : lookup id ctx with
    | none =>
      exact unchanged (congrArg (commit ctx) (updateFarmer_of_absent hid name aadhar))
    | some v =>
      by_cases hnil : id = []
      · subst hnil
        exact unchanged (congrArg (commit ctx) (updateFarmer_nil hid name aadhar))
      · exact one id _ (congrArg (commit ctx) (updateFarmer_of_present hid hnil name aadhar))
          hnil (Or.inr (by rw [hid]; exact Option.some_ne_none v)) (farmer_doc_decodes _)
          fun _ _ => farmer_doc_bidKeyed _ _
  | DeleteFarmer id =>
    cases hid : lookup id ctx with
    | none =>
      left
      exact unchanged (congrArg (commit ctx) (deleteFarmer_of_absent hid))
    | some v =>
      right
      exact ⟨id, congrArg (commit ctx) (deleteFarmer_of_present hid)⟩
  | CreateCompany id name gst =>
    left
    cases hid : lookup id ctx with
    | some v =>
      exact unchanged (congrArg (commit ctx) (createCompany_of_present hid name gst))
    | none =>
      by_cases hnil : id = []
      · subst hnil
        exact unchanged (congrArg (commit ctx) (createCompany_nil hid name gst))
      · exact one id _ (congrArg (commit ctx) (createCompany_of_absent hid hnil name gst))
          hnil (Or.inl (List.mem_singleton.mpr rfl)) (company_doc_decodes _)
          fun _ _ => company_doc_bidKeyed _ _
  | UpdateCompany id name gst =>
    left
    cases hid : lookup id ctx with
    | none =>
      exact unchanged (congrArg (commit ctx) (updateCompany_of_absent hid name gst))
    | some v =>
      by_cases hnil : id = []
      · subst hnil
        exact unchanged (congrArg (commit ctx) (updateCompany_nil hid name gst))
      · exact one id _ (congrArg (commit ctx) (updateCompany_of_present hid hnil name gst))
          hnil (Or.inr (by rw [hid]; exact Option.some_ne_none v)) (company_doc_decodes _)
          fun _ _ => company_doc_bidKeyed _ _
  | DeleteCompany id =>
    cases hid : lookup id ctx with
    | none =>
      left
      exact unchanged (congrArg (commit ctx) (deleteCompany_of_absent hid))
    | some v =>
      right
      exact ⟨id, congrArg (commit ctx) (deleteCompany_of_present hid)⟩
  | CreateCrop id name price lastUpdate =>
    left
    by_cases hnil : id = []
    · subst hnil
      exact unchanged (congrArg (commit ctx) (createCrop_nil ctx name price lastUpdate))
    · exact one id _ (congrArg (commit ctx) (createCrop_of_ne hnil ctx name price lastUpdate))
        hnil (Or.inl (List.mem_singleton.mpr rfl)) (crop_doc_decodes _)
        fun _ _ => crop_doc_bidKeyed _ _
  | CreateBid cropId cropName farmerAadhar basePrice date expiry =>
    left
    refine one (go "BID_" ++ cropId) _
      (congrArg (commit ctx)
        (createBid_eq ctx cropId cropName farmerAadhar basePrice date expiry))
      (bid_key_ne_nil _) (Or.inl (List.mem_singleton.mpr rfl)) (bid_doc_decodes _)
      fun hv _ => bid_doc_bidKeyed fun _ => ?_
    have hv' : utf8.ValidString cropId := hv
    show go "BID_" ++ cropId = go "BID_" ++ json.coerce cropId
    rw [coerce_of_valid hv']
  | MakeBid cropId companyName bidPrice timestamp =>
    left
    cases hid : lookup (go "BID_" ++ cropId) ctx with
    | none =>
      exact unchanged (congrArg (commit ctx)
        (makeBid_of_absent hid companyName bidPrice timestamp))
    | some data =>
      cases hbid : (json.Unmarshal data : Except Error Bid) with
      | error err =>
        exact unchanged (congrArg (commit ctx)
          (makeBid_of_error hid hbid companyName bidPrice timestamp))
      | ok bid =>
        refine one (go "BID_" ++ cropId) _
          (congrArg (commit ctx) (makeBid_of_bid hid hbid companyName bidPrice timestamp))
          (bid_key_ne_nil _) (Or.inr (by rw [hid]; exact Option.some_ne_none data))
          (bid_doc_decodes _) fun _ hctx => bid_doc_bidKeyed fun hne => ?_
        have hfix : json.coerce bid.CropID = bid.CropID :=
          congrArg Bid.CropID (unmarshal_bid_fixed hbid)
        have hne' : bid.CropID ≠ [] := fun e => hne (by
          show json.coerce bid.CropID = []
          rw [hfix]; exact e)
        show go "BID_" ++ cropId = go "BID_" ++ json.coerce bid.CropID
        rw [hfix]
        exact hctx _ (mem_of_lookup hid) bid hbid hne'

theorem exec_ascending {ctx : World} (op : Op) (h : Ascending ctx) :
    Ascending (exec ctx op) := by
  rcases exec_cases ctx op with ⟨ws, hw, _⟩ | ⟨key, hk⟩
  · rw [hw]; exact puts_ascending ws h
  · rw [hk]; exact erase_ascending key h

/-- Every call of the contract keeps the entries in strictly ascending key order. -/
theorem run_ascending (ops : List Op) {ctx : World} (h : Ascending ctx) :
    Ascending (run ctx ops) := by
  induction ops generalizing ctx with
  | nil => simpa [run] using h
  | cons op rest ih => simpa [run] using ih (exec_ascending op h)

theorem exec_keeps_absent {ctx : World} {key : GoString} (op : Op)
    (h : lookup key ctx = none) (hop : key ∉ op.createsAt) :
    lookup key (exec ctx op) = none := by
  rcases exec_cases ctx op with ⟨ws, hw, hall⟩ | ⟨key', hk⟩
  · rw [hw, lookup_puts_ne ws ctx, h]
    intro w hmem heq
    rcases (hall w hmem).2.1 with hc | hl
    · exact hop (heq ▸ hc)
    · exact hl (heq ▸ h)
  · rw [hk]; exact lookup_erase_of_none key' h

theorem run_keeps_absent {key : GoString} (ops : List Op) (ctx : World)
    (h : lookup key ctx = none) (hops : ∀ op ∈ ops, key ∉ op.createsAt) :
    lookup key (run ctx ops) = none := by
  induction ops generalizing ctx with
  | nil => simpa [run] using h
  | cons op rest ih =>
    have h1 := exec_keeps_absent op h (hops op (List.mem_cons_self _ _))
    have := ih (exec ctx op) h1 (fun o ho => hops o (List.mem_cons_of_mem _ ho))
    simpa [run] using this

theorem exec_keeps_empty_key_absent {ctx : World} (op : Op) (h : lookup [] ctx = none) :
    lookup [] (exec ctx op) = none := by
  rcases exec_cases ctx op with ⟨ws, hw, hall⟩ | ⟨key', hk⟩
  · rw [hw, lookup_puts_ne ws ctx, h]
    exact fun w hmem => (hall w hmem).1
  · rw [hk]; exact lookup_erase_of_none key' h

/-- No call of the contract stores a value under the empty key, which `PutState` rejects:
a ledger without it stays without it. -/
theorem run_keeps_empty_key_absent (ops : List Op) {ctx : World}
    (h : lookup [] ctx = none) : lookup [] (run ctx ops) = none := by
  induction ops generalizing ctx with
  | nil => simpa [run] using h
  | cons op rest ih => simpa [run] using ih (exec_keeps_empty_key_absent op h)

theorem exec_keeps_decodable {ctx : World} (op : Op)
    (h : ∀ e ∈ ctx, DecodesAsEveryKind e.2) :
    ∀ e ∈ exec ctx op, DecodesAsEveryKind e.2 := by
  rcases exec_cases ctx op with ⟨ws, hw, hall⟩ | ⟨key', hk⟩
  · rw [hw]; exact forall_puts ws h fun w hmem => (hall w hmem).2.2.1
  · rw [hk]; exact forall_erase h

/-- Every value a call of the contract stores decodes as each of the four kinds. -/
theorem run_keeps_decodable (ops : List Op) {ctx : World}
    (h : ∀ e ∈ ctx, DecodesAsEveryKind e.2) :
    ∀ e ∈ run ctx ops, DecodesAsEveryKind e.2 := by
  induction ops generalizing ctx with
  | nil => simpa [run] using h
  | cons op rest ih => simpa [run] using ih (exec_keeps_decodable op h)

theorem exec_keeps_bidKeyed {ctx : World} (op : Op) (hop : op.ValidBidKey)
    (h : ∀ e ∈ ctx, BidKeyed e) : ∀ e ∈ exec ctx op, BidKeyed e := by
  rcases exec_cases ctx op with ⟨ws, hw, hall⟩ | ⟨key', hk⟩
  · rw [hw]; exact forall_puts ws h fun w hmem => (hall w hmem).2.2.2 hop h
  · rw [hk]; exact forall_erase h

/-- When the `cropId` of each `CreateBid` is valid UTF-8, every stored value that decodes as
a bid with a non-empty `CropID` lies under the key `"BID_" + CropID`. -/
theorem run_keeps_bidKeyed (ops : List Op) (hops : ∀ op ∈ ops, op.ValidBidKey)
    {ctx : World} (h : ∀ e ∈ ctx, BidKeyed e) : ∀ e ∈ run ctx ops, BidKeyed e := by
  induction ops generalizing ctx with
  | nil => simpa [run] using h
  | cons op rest ih =>
    have := ih (fun o ho => hops o (List.mem_cons_of_mem _ ho))
      (exec_keeps_bidKeyed op (hops op (List.mem_cons_self _ _)) h)
    simpa [run] using this

/-! ## The scans -/

theorem getAllFarmers_loop_error (l : List (GoString × Bytes)) (acc : List Farmer)
    (h : ∃ e ∈ l, ∃ err, (json.Unmarshal e.2 : Except Error Farmer) = .error err) :
    ∃ err, GetAllFarmers.loop l acc = .error err := by
  induction l generalizing acc with
  | nil => simp at h
  | cons e rest ih =>
    cases he : (json.Unmarshal e.2 : Except Error Farmer) with
    | error err => exact ⟨err, by simp [GetAllFarmers.loop, he]⟩
    | ok f =>
      obtain ⟨e', hmem, err, herr⟩ := h
      rcases List.mem_cons.mp hmem with rfl | hmem
      · rw [he] at herr; cases herr
      · obtain ⟨err', h'⟩ := ih (acc ++ [f]) ⟨e', hmem, err, herr⟩
        exact ⟨err', by simp [GetAllFarmers.loop, he, h']⟩

theorem getAllCompanies_loop_eq (l : List (GoString × Bytes)) (acc : List Company) :
    GetAllCompanies.loop l acc = .ok (acc ++
      l.filterMap fun e => (json.Unmarshal e.2 : Except Error Company).toOption) := by
  induction l generalizing acc with
  | nil => simp [GetAllCompanies.loop]
  | cons e rest ih =>
    cases he : (json.Unmarshal e.2 : Except Error Company) with
    | error err => simp [GetAllCompanies.loop, he, ih, Except.toOption]
    | ok c => simp [GetAllCompanies.loop, he, ih, Except.toOption]

theorem getAllCrops_loop_eq (l : List (GoString × Bytes)) (acc : List Crop) :
    GetAllCrops.loop l acc = .ok (acc ++
      (l.filterMap fun e => (json.Unmarshal e.2 : Except Error Crop).toOption).filter
        fun c => c.Name != []) := by
  induction l generalizing acc with
  | nil => simp [GetAllCrops.loop]
  | cons e rest ih =>
    cases he : (json.Unmarshal e.2 : Except Error Crop) with
    | error err => simp [GetAllCrops.loop, he, ih, Except.toOption]
    | ok c =>
      by_cases hn : c.Name = []
      · simp [GetAllCrops.loop, he, ih, Except.toOption, hn]
      · simp [GetAllCrops.loop, he, ih, Except.toOption, hn, List.filter_cons]

theorem getAllBids_loop_eq (l : List (GoString × Bytes)) (acc : List Bid) :
    GetAllBids.loop l acc = .ok (acc ++
      (l.filterMap fun e => (json.Unmarshal e.2 : Except Error Bid).toOption).filter
        fun b => b.CropID != []) := by
  induction l generalizing acc with
  | nil => simp [GetAllBids.loop]
  | cons e rest ih =>
    cases he : (json.Unmarshal e.2 : Except Error Bid) with
    | error err => simp [GetAllBids.loop, he, ih, Except.toOption]
    | ok b =>
      by_cases hn : b.CropID = []
      · simp [GetAllBids.loop, he, ih, Except.toOption, hn]
      · simp [GetAllBids.loop, he, ih, Except.toOption, hn, List.filter_cons]

theorem getAllCompanies_eq (ctx : World) :
    GetAllCompanies ctx = .ok
      (ctx.filterMap fun e => (json.Unmarshal e.2 : Except Error Company).toOption) := by
  simp [GetAllCompanies, getStateByRange_all, getAllCompanies_loop_eq]

theorem getAllCrops_eq (ctx : World) :
    GetAllCrops ctx = .ok
      ((ctx.filterMap fun e => (json.Unmarshal e.2 : Except Error Crop).toOption).filter
        fun c => c.Name != []) := by
  simp [GetAllCrops, getStateByRange_all, getAllCrops_loop_eq]

theorem getAllBids_eq (ctx : World) :
    GetAllBids ctx = .ok
      ((ctx.filterMap fun e => (json.Unmarshal e.2 : Except Error Bid).toOption).filter
        fun b => b.CropID != []) := by
  simp [GetAllBids, getStateByRange_all, getAllBids_loop_eq]

theorem getAllFarmers_loop_all (l : List (GoString × Bytes)) (acc : List Farmer)
    (h : ∀ e ∈ l, ∃ farmer : Farmer, json.Unmarshal e.2 = .ok farmer) :
    ∃ farmers, GetAllFarmers.loop l acc = .ok (acc ++ farmers) ∧
      List.Forall₂ (fun e farmer => json.Unmarshal e.2 = .ok farmer) l farmers := by
  induction l generalizing acc with
  | nil => exact ⟨[], by simp [GetAllFarmers.loop], List.Forall₂.nil⟩
  | cons e rest ih =>
    obtain ⟨f, hf⟩ := h e (List.mem_cons_self _ _)
    obtain ⟨fs, h1, h2⟩ := ih (acc ++ [f]) fun e' he' => h e' (List.mem_cons_of_mem _ he')
    refine ⟨f :: fs, ?_, List.Forall₂.cons hf h2⟩
    simp only [GetAllFarmers.loop, hf, h1, List.append_assoc, List.singleton_append]

/-! ## Sequences of calls -/

theorem members_append_coerce (b : Bid) (x : Bidder) :
    GoStruct.members { b.coerce with Bidders := append b.coerce.Bidders x } =
      GoStruct.members { b with Bidders := append b.Bidders x } := by
  cases hb : b.Bidders <;>
    simp [GoStruct.members, Bid.coerce, append, toValidUTF8_coerce, biddersJson,
      Bidder.coerce, hb]

theorem makeBid_of_doc {ctx : World} {cropId : GoString} {bid : Bid}
    (h : lookup (go "BID_" ++ cropId) ctx = some (.doc (.obj (GoStruct.members bid))))
    (companyName : GoString) (bidPrice : GoInt) (timestamp : GoString) :
    MakeBid ctx cropId companyName bidPrice timestamp =
      .ok (insert (go "BID_" ++ cropId)
        (.doc (.obj (GoStruct.members
          { bid with
            Bidders := append bid.Bidders
              ({ CompanyName := companyName, BidPrice := bidPrice,
                 Timestamp := timestamp } : Bidder) })))
        ctx) := by
  rw [makeBid_of_bid h (unmarshal_marshal_bid bid), members_append_coerce]

theorem makeBids_accumulate (cropId cropName farmerAadhar : GoString) (basePrice : GoInt)
    (date expiry : GoString) (calls : List (GoString × GoInt × GoString)) :
    ∀ (ctx : World) (l : List Bidder),
      lookup (go "BID_" ++ cropId) ctx = some (.doc (.obj (GoStruct.members
        ({ CropID := cropId, CropName := cropName, FarmerAadhar := farmerAadhar,
           BasePrice := basePrice, Date := date, Expiry := expiry,
           Bidders := some l } : Bid)))) →
      ∃ ctx', callAll ctx (calls.map fun c => Op.MakeBid cropId c.1 c.2.1 c.2.2) = .ok ctx' ∧
        lookup (go "BID_" ++ cropId) ctx' = some (.doc (.obj (GoStruct.members
          ({ CropID := cropId, CropName := cropName, FarmerAadhar := farmerAadhar,
             BasePrice := basePrice, Date := date, Expiry := expiry,
             Bidders := some (l ++ calls.map fun c =>
               { CompanyName := c.1, BidPrice := c.2.1, Timestamp := c.2.2 }) } : Bid)))) := by
  induction calls with
  | nil => intro ctx l h; exact ⟨ctx, rfl, by simpa using h⟩
  | cons c rest ih =>
    intro ctx l h
    have hm := makeBid_of_doc h c.1 c.2.1 c.2.2
    obtain ⟨ctx', h1, h2⟩ := ih _ (l ++ [(⟨c.1, c.2.1, c.2.2⟩ : Bidder)])
      (lookup_insert_self _ _ ctx)
    refine ⟨ctx', ?_, ?_⟩
    · simp only [List.map_cons, callAll, Op.call, hm]
      exact h1
    · simpa using h2

theorem callAll_append (ops ops' : List Op) (ctx ctx' : World)
    (h : callAll ctx ops = .ok ctx') : callAll ctx (ops ++ ops') = callAll ctx' ops' := by
  induction ops generalizing ctx with
  | nil => simp only [callAll, Except.ok.injEq] at h; subst h; rfl
  | cons op rest ih =>
    simp only [callAll, List.cons_append] at h ⊢
    cases hop : op.call ctx with
    | error err => simp [hop] at h
    | ok c1 => simp only [hop] at h ⊢; exact ih c1 h

/-! ## Reading and writing a bid -/

theorem getBid_ok {ctx : World} {cropId : GoString} {bid : Bid}
    (h : GetBid ctx cropId = .ok bid) :
    ∃ data, lookup (go "BID_" ++ cropId) ctx = some data ∧ json.Unmarshal data = .ok bid := by
  cases hl : lookup (go "BID_" ++ cropId) ctx with
  | none => simp [GetBid, GetState, hl] at h
  | some data => exact ⟨data, rfl, by simpa [GetBid, GetState, hl] using h⟩

theorem makeBid_ok {ctx ctx' : World} {cropId companyName : GoString} {bidPrice : GoInt}
    {timestamp : GoString}
    (h : MakeBid ctx cropId companyName bidPrice timestamp = .ok ctx') :
    ∃ (data : Bytes) (bid : Bid), lookup (go "BID_" ++ cropId) ctx = some data ∧
      json.Unmarshal data = .ok bid ∧
      ctx' = insert (go "BID_" ++ cropId)
        (.doc (.obj (GoStruct.members
          { bid with
            Bidders := append bid.Bidders
              ({ CompanyName := companyName, BidPrice := bidPrice,
                 Timestamp := timestamp } : Bidder) })))
        ctx := by
  cases hl : lookup (go "BID_" ++ cropId) ctx with
  | none => simp [makeBid_of_absent hl] at h
  | some data =>
    cases hb : (json.Unmarshal data : Except Error Bid) with
    | error err => simp [makeBid_of_error hl hb] at h
    | ok bid =>
      rw [makeBid_of_bid hl hb] at h
      exact ⟨data, bid, rfl, hb, (Except.ok.inj h).symm⟩

/-! ## Frames of the writes -/

theorem frame_of_bid_write {ctx : World} {cropId : GoString} (data : Bytes) :
    (∀ key, key ≠ go "BID_" ++ cropId →
      lookup key (insert (go "BID_" ++ cropId) data ctx) = lookup key ctx) ∧
    GetCrop (insert (go "BID_" ++ cropId) data ctx) cropId = GetCrop ctx cropId ∧
    ∀ cropId', cropId' ≠ cropId →
      GetBid (insert (go "BID_" ++ cropId) data ctx) cropId' = GetBid ctx cropId' := by
  refine ⟨fun key hk => lookup_insert_ne hk _ _, ?_, ?_⟩
  · simp only [GetCrop, GetState, lookup_insert_ne (bid_key_ne_self cropId)]
  · intro cropId' hne
    have hk : go "BID_" ++ cropId' ≠ go "BID_" ++ cropId := fun e => hne (bid_key_inj e)
    simp only [GetBid, GetState, lookup_insert_ne hk]

theorem lookup_seeded (key : GoString) (ctx : World) :
    lookup key
      (insert (go "farmer4") (.doc (.obj (GoStruct.members
        ({ ID := go "farmer4", Name := go "Geeta Verma",
           Aadhar := go "456789012345" } : Farmer))))
      (insert (go "farmer3") (.doc (.obj (GoStruct.members
        ({ ID := go "farmer3", Name := go "Amit Patel",
           Aadhar := go "345678901234" } : Farmer))))
      (insert (go "farmer2") (.doc (.obj (GoStruct.members
        ({ ID := go "farmer2", Name := go "Sunita Sharma",
           Aadhar := go "234567890123" } : Farmer))))
      (insert (go "farmer1") (.doc (.obj (GoStruct.members
        ({ ID := go "farmer1", Name := go "Ravi Kumar",
           Aadhar := go "123456789012" } : Farmer))))
      ctx)))) =
    if key = go "farmer4" then some (.doc (.obj (GoStruct.members
        ({ ID := go "farmer4", Name := go "Geeta Verma",
           Aadhar := go "456789012345" } : Farmer))))
    else if key = go "farmer3" then some (.doc (.obj (GoStruct.members
        ({ ID := go "farmer3", Name := go "Amit Patel",
           Aadhar := go "345678901234" } : Farmer))))
    else if key = go "farmer2" then some (.doc (.obj (GoStruct.members
        ({ ID := go "farmer2", Name := go "Sunita Sharma",
           Aadhar := go "234567890123" } : Farmer))))
    else if key = go "farmer1" then some (.doc (.obj (GoStruct.members
        ({ ID := go "farmer1", Name := go "Ravi Kumar",
           Aadhar := go "123456789012" } : Farmer))))
    else lookup key ctx := by
  simp only [lookup_insert]

/-! ## Create, read, update, delete -/

/-- C1, as stated, fails: `CreateFarmer("f9", name, "111122223333")` with a `name` that is
the one byte 0xFF (not valid UTF-8) succeeds, and `ReadFarmer("f9")` then returns a farmer
whose `Name` is U+FFFD (the bytes EF BF BD), not the `name` given. -/
theorem create_then_read_counterexample :
    CreateFarmer emptyLedger (go "f9") [0xFF] (go "111122223333") =
      .ok (run emptyLedger [.CreateFarmer (go "f9") [0xFF] (go "111122223333")]) ∧
    ReadFarmer (run emptyLedger [.CreateFarmer (go "f9") [0xFF] (go "111122223333")])
        (go "f9") =
      .ok { ID := go "f9", Name := [0xEF, 0xBF, 0xBD], Aadhar := go "111122223333" } ∧
    ({ ID := go "f9", Name := [0xEF, 0xBF, 0xBD], Aadhar := go "111122223333" } : Farmer) ≠
      { ID := go "f9", Name := [0xFF], Aadhar := go "111122223333" } :=
  ⟨by rfl, by rfl, by decide⟩

/-- C1, amended: a successful create followed by the read of the same id returns the
record that was created with each of its strings coerced to valid UTF-8: a string that is
valid UTF-8 is returned as given, and in one that is not every invalid byte is replaced by
U+FFFD.  This holds for `CreateFarmer` / `ReadFarmer`, `CreateCompany` / `ReadCompany`,
`CreateCrop` / `GetCrop`, and `CreateBid` / `GetBid`, the bid being read back with an
empty `Bidders` slice. -/
theorem create_then_read (ctx ctx' : World) :
    (∀ id name aadhar : GoString, CreateFarmer ctx id name aadhar = .ok ctx' →
      ReadFarmer ctx' id =
        .ok (Farmer.coerce { ID := id, Name := name, Aadhar := aadhar })) ∧
    (∀ id name gst : GoString, CreateCompany ctx id name gst = .ok ctx' →
      ReadCompany ctx' id = .ok (Company.coerce { ID := id, Name := name, GST := gst })) ∧
    (∀ (id name : GoString) (price : GoInt) (lastUpdate : GoString),
      CreateCrop ctx id name price lastUpdate = .ok ctx' →
      GetCrop ctx' id =
        .ok (Crop.coerce
          { ID := id, Name := name, Price := price, LastUpdate := lastUpdate })) ∧
    (∀ (cropId cropName farmerAadhar : GoString) (basePrice : GoInt)
        (date expiry : GoString),
      CreateBid ctx cropId cropName farmerAadhar basePrice date expiry = .ok ctx' →
      GetBid ctx' cropId =
        .ok (Bid.coerce
          { CropID := cropId, CropName := cropName, FarmerAadhar := farmerAadhar,
            BasePrice := basePrice, Date := date, Expiry := expiry,
            Bidders := some [] })) ∧
    (∀ s : GoString, utf8.ValidString s → json.coerce s = s) := by
  refine ⟨?_, ?_, ?_, ?_, fun s hs => coerce_of_valid hs⟩
  · intro id name aadhar h
    cases hid : lookup id ctx with
    | some v => simp [createFarmer_of_present hid] at h
    | none =>
      by_cases hnil : id = []
      · subst hnil
        simp [createFarmer_nil hid] at h
      · simp only [createFarmer_of_absent hid hnil, Except.ok.injEq] at h
        subst h
        simp only [ReadFarmer, GetState, lookup_insert_self]
        exact unmarshal_marshal_farmer _
  · intro id name gst h
    cases hid : lookup id ctx with
    | some v => simp [createCompany_of_present hid] at h
    | none =>
      by_cases hnil : id = []
      · subst hnil
        simp [createCompany_nil hid] at h
      · simp only [createCompany_of_absent hid hnil, Except.ok.injEq] at h
        subst h
        simp only [ReadCompany, GetState, lookup_insert_self]
        exact unmarshal_marshal_company _
  · intro id name price lastUpdate h
    by_cases hnil : id = []
    · subst hnil
      simp [createCrop_nil] at h
    · simp only [createCrop_of_ne hnil, Except.ok.injEq] at h
      subst h
      simp only [GetCrop, GetState, lookup_insert_self]
      exact unmarshal_marshal_crop _
  · intro cropId cropName farmerAadhar basePrice date expiry h
    simp only [createBid_eq, Except.ok.injEq] at h
    subst h
    simp only [GetBid, GetState, lookup_insert_self]
    exact unmarshal_marshal_bid _

/-- Witness of the amended C1 on the empty ledger: a farmer is created with arguments that
are valid UTF-8 and read back as given. -/
theorem create_then_read_witness :
    CreateFarmer emptyLedger (go "f9") (go "Asha") (go "111122223333") =
      .ok (run emptyLedger [.CreateFarmer (go "f9") (go "Asha") (go "111122223333")]) ∧
    ReadFarmer (run emptyLedger [.CreateFarmer (go "f9") (go "Asha") (go "111122223333")])
        (go "f9") =
      .ok { ID := go "f9", Name := go "Asha", Aadhar := go "111122223333" } :=
  ⟨by rfl,
   ((create_then_read emptyLedger
      (run emptyLedger [.CreateFarmer (go "f9") (go "Asha") (go "111122223333")])).1
      (go "f9") (go "Asha") (go "111122223333") (by rfl)).trans (by rfl)⟩

/-- C2: creating a farmer or a company under an id that already holds a value fails with
the already-exists error and leaves the ledger unchanged; in particular a second
`CreateFarmer` (or `CreateCompany`) with the id of a first, successful one fails, and what
is read back is still what the first call stored (its record, each string coerced to
valid UTF-8 by the codec), the same as before the second call. -/
theorem create_existing_rejected (ctx : World) (id : GoString) (v : Bytes)
    (h : lookup id ctx = some v) :
    (∀ name aadhar : GoString,
      CreateFarmer ctx id name aadhar =
        .error (.errorf (go "the farmer " ++ id ++ go " already exists")) ∧
      exec ctx (.CreateFarmer id name aadhar) = ctx) ∧
    (∀ name gst : GoString,
      CreateCompany ctx id name gst =
        .error (.errorf (go "the company " ++ id ++ go " already exists")) ∧
      exec ctx (.CreateCompany id name gst) = ctx) ∧
    (∀ (ctx0 : World) (name aadhar name' aadhar' : GoString),
      CreateFarmer ctx0 id name aadhar = .ok ctx →
      CreateFarmer ctx id name' aadhar' =
        .error (.errorf (go "the farmer " ++ id ++ go " already exists")) ∧
      ReadFarmer (exec ctx (.CreateFarmer id name' aadhar')) id = ReadFarmer ctx id ∧
      ReadFarmer (exec ctx (.CreateFarmer id name' aadhar')) id =
        .ok (Farmer.coerce { ID := id, Name := name, Aadhar := aadhar })) ∧
    (∀ (ctx0 : World) (name gst name' gst' : GoString),
      CreateCompany ctx0 id name gst = .ok ctx →
      CreateCompany ctx id name' gst' =
        .error (.errorf (go "the company " ++ id ++ go " already exists")) ∧
      ReadCompany (exec ctx (.CreateCompany id name' gst')) id = ReadCompany ctx id ∧
      ReadCompany (exec ctx (.CreateCompany id name' gst')) id =
        .ok (Company.coerce { ID := id, Name := name, GST := gst })) := by
  have hF : ∀ name aadhar : GoString, exec ctx (.CreateFarmer id name aadhar) = ctx :=
    fun name aadhar => congrArg (commit ctx) (createFarmer_of_present h name aadhar)
  have hC : ∀ name gst : GoString, exec ctx (.CreateCompany id name gst) = ctx :=
    fun name gst => congrArg (commit ctx) (createCompany_of_present h name gst)
  refine ⟨fun name aadhar => ⟨createFarmer_of_present h _ _, hF name aadhar⟩,
    fun name gst => ⟨createCompany_of_present h _ _, hC name gst⟩,
    fun ctx0 name aadhar name' aadhar' h0 =>
      ⟨createFarmer_of_present h _ _, by rw [hF], ?_⟩,
    fun ctx0 name gst name' gst' h0 =>
      ⟨createCompany_of_present h _ _, by rw [hC], ?_⟩⟩
  · rw [hF]
    cases hid : lookup id ctx0 with
    | some v0 => simp [createFarmer_of_present hid] at h0
    | none =>
      by_cases hnil : id = []
      · subst hnil
        simp [createFarmer_nil hid] at h0
      · simp only [createFarmer_of_absent hid hnil, Except.ok.injEq] at h0
        subst h0
        simp only [ReadFarmer, GetState, lookup_insert_self]
        exact unmarshal_marshal_farmer _
  · rw [hC]
    cases hid : lookup id ctx0 with
    | some v0 => simp [createCompany_of_present hid] at h0
    | none =>
      by_cases hnil : id = []
      · subst hnil
        simp [createCompany_nil hid] at h0
      · simp only [createCompany_of_absent hid hnil, Except.ok.injEq] at h0
        subst h0
        simp only [ReadCompany, GetState, lookup_insert_self]
        exact unmarshal_marshal_company _

/-- Witness of C2: a second `CreateFarmer "f9"` on the ledger the first one left. -/
theorem create_existing_rejected_witness :
    (∃ v, lookup (go "f9")
      (run emptyLedger [.CreateFarmer (go "f9") (go "Asha") (go "111122223333")]) =
        some v) ∧
    CreateFarmer emptyLedger (go "f9") (go "Asha") (go "111122223333") =
      .ok (run emptyLedger [.CreateFarmer (go "f9") (go "Asha") (go "111122223333")]) ∧
    CreateFarmer (run emptyLedger [.CreateFarmer (go "f9") (go "Asha") (go "111122223333")])
        (go "f9") (go "Bina") (go "444455556666") =
      .error (.errorf (go "the farmer " ++ go "f9" ++ go " already exists")) ∧
    ReadFarmer (exec
        (run emptyLedger [.CreateFarmer (go "f9") (go "Asha") (go "111122223333")])
        (.CreateFarmer (go "f9") (go "Bina") (go "444455556666"))) (go "f9") =
      .ok { ID := go "f9", Name := go "Asha", Aadhar := go "111122223333" } := by
  have h := (create_existing_rejected
    (run emptyLedger [.CreateFarmer (go "f9") (go "Asha") (go "111122223333")])
    (go "f9") _ (by rfl)).2.2.1 emptyLedger (go "Asha") (go "111122223333") (go "Bina")
    (go "444455556666") (by rfl)
  exact ⟨⟨_, by rfl⟩, by rfl, h.1, h.2.2.trans (by rfl)⟩

/-- C3: `UpdateFarmer`, `UpdateCompany`, `DeleteFarmer` and `DeleteCompany` on an id that
holds no value fail with the not-found error and leave the ledger unchanged. -/
theorem update_delete_absent_rejected (ctx : World) (id : GoString)
    (h : lookup id ctx = none) :
    (∀ name aadhar : GoString,
      UpdateFarmer ctx id name aadhar =
        .error (.errorf (go "the farmer " ++ id ++ go " does not exist")) ∧
      exec ctx (.UpdateFarmer id name aadhar) = ctx) ∧
    (∀ name gst : GoString,
      UpdateCompany ctx id name gst =
        .error (.errorf (go "the company " ++ id ++ go " does not exist")) ∧
      exec ctx (.UpdateCompany id name gst) = ctx) ∧
    (DeleteFarmer ctx id =
        .error (.errorf (go "the farmer " ++ id ++ go " does not exist")) ∧
      exec ctx (.DeleteFarmer id) = ctx) ∧
    (DeleteCompany ctx id =
        .error (.errorf (go "the company " ++ id ++ go " does not exist")) ∧
      exec ctx (.DeleteCompany id) = ctx) :=
  ⟨fun name aadhar => ⟨updateFarmer_of_absent h _ _,
      congrArg (commit ctx) (updateFarmer_of_absent h name aadhar)⟩,
    fun name gst => ⟨updateCompany_of_absent h _ _,
      congrArg (commit ctx) (updateCompany_of_absent h name gst)⟩,
    ⟨deleteFarmer_of_absent h, congrArg (commit ctx) (deleteFarmer_of_absent h)⟩,
    ⟨deleteCompany_of_absent h, congrArg (commit ctx) (deleteCompany_of_absent h)⟩⟩

/-- Witness of C3 on a ledger that holds one farmer, under another id. -/
theorem update_delete_absent_rejected_witness :
    lookup (go "f7")
      (run emptyLedger [.CreateFarmer (go "f9") (go "Asha") (go "111122223333")]) = none ∧
    (UpdateFarmer (run emptyLedger [.CreateFarmer (go "f9") (go "Asha") (go "111122223333")])
        (go "f7") (go "Bina") (go "444455556666") =
        .error (.errorf (go "the farmer " ++ go "f7" ++ go " does not exist")) ∧
      exec (run emptyLedger [.CreateFarmer (go "f9") (go "Asha") (go "111122223333")])
          (.UpdateFarmer (go "f7") (go "Bina") (go "444455556666")) =
        run emptyLedger [.CreateFarmer (go "f9") (go "Asha") (go "111122223333")]) :=
  ⟨by rfl,
   (update_delete_absent_rejected
    (run emptyLedger [.CreateFarmer (go "f9") (go "Asha") (go "111122223333")])
    (go "f7") (by rfl)).1 (go "Bina") (go "444455556666")⟩

/-! ## Bids -/

/-- C4, as stated, fails: the sequence `CreateFarmer("BID_c1", ...)` contains no
`CreateBid`, yet `MakeBid("c1", ...)` on the ledger it leaves does not fail with the
not-found error.  It reads the farmer stored under the key `BID_c1` as a bid without
fields, appends the bidder and overwrites the farmer. -/
theorem makeBid_without_createBid_counterexample :
    MakeBid (run emptyLedger [.CreateFarmer (go "BID_c1") (go "Asha") (go "111122223333")])
        (go "c1") (go "Agro") ⟨50, by decide⟩ (go "2024-01-05") =
      .ok [(go "BID_c1", .doc (.obj [("crop_id", .str ""), ("crop_name", .str ""),
        ("farmer_aadhar", .str ""), ("base_price", .int 0), ("date", .str ""),
        ("expiry", .str ""),
        ("bidders", .arr [.obj [("company_name", .str "Agro"), ("bid_price", .int 50),
          ("timestamp", .str "2024-01-05")]])]))] ∧
    MakeBid (run emptyLedger [.CreateFarmer (go "BID_c1") (go "Asha") (go "111122223333")])
        (go "c1") (go "Agro") ⟨50, by decide⟩ (go "2024-01-05") ≠
      .error (.errorf (go "bid for crop " ++ go "c1" ++ go " not found")) ∧
    exec (run emptyLedger [.CreateFarmer (go "BID_c1") (go "Asha") (go "111122223333")])
        (.MakeBid (go "c1") (go "Agro") ⟨50, by decide⟩ (go "2024-01-05")) ≠
      run emptyLedger [.CreateFarmer (go "BID_c1") (go "Asha") (go "111122223333")] := by
  refine ⟨by rfl, ?_, ?_⟩
  · intro h
    have h' : (Except.ok _ : Except Error World) = .error _ := (Eq.symm (by rfl)).trans h
    cases h'
  · intro h
    have h' : ([(_, Bytes.doc (.obj (("crop_id", _) :: _)))] : World) =
        [(_, Bytes.doc (.obj (("aadhar", _) :: _)))] := h
    simp at h'

/-- C4, amended: on every ledger reached from the empty ledger by a sequence of calls that
holds no `CreateBid` for `cropId` and no `CreateFarmer`, `CreateCompany` or `CreateCrop`
whose id is `"BID_" + cropId`, `MakeBid(cropId, ...)` fails with the not-found error and
leaves the ledger unchanged. -/
theorem makeBid_without_bid_rejected (ops : List Op) (cropId companyName : GoString)
    (bidPrice : GoInt) (timestamp : GoString)
    (hBid : ∀ (cropName farmerAadhar : GoString) (basePrice : GoInt)
        (date expiry : GoString),
      Op.CreateBid cropId cropName farmerAadhar basePrice date expiry ∉ ops)
    (hFarmer : ∀ name aadhar : GoString,
      Op.CreateFarmer (go "BID_" ++ cropId) name aadhar ∉ ops)
    (hCompany : ∀ name gst : GoString,
      Op.CreateCompany (go "BID_" ++ cropId) name gst ∉ ops)
    (hCrop : ∀ (name : GoString) (price : GoInt) (lastUpdate : GoString),
      Op.CreateCrop (go "BID_" ++ cropId) name price lastUpdate ∉ ops) :
    MakeBid (run emptyLedger ops) cropId companyName bidPrice timestamp =
      .error (.errorf (go "bid for crop " ++ cropId ++ go " not found")) ∧
    exec (run emptyLedger ops) (.MakeBid cropId companyName bidPrice timestamp) =
      run emptyLedger ops := by
  have habs : lookup (go "BID_" ++ cropId) (run emptyLedger ops) = none := by
    apply run_keeps_absent ops emptyLedger rfl
    intro op hop
    cases op with
    | InitLedger => exact bid_key_ne_seed cropId
    | CreateFarmer id name aadhar =>
      simp only [Op.createsAt, List.mem_singleton]
      intro e
      exact hFarmer name aadhar (e ▸ hop)
    | CreateCompany id name gst =>
      simp only [Op.createsAt, List.mem_singleton]
      intro e
      exact hCompany name gst (e ▸ hop)
    | CreateCrop id name price lastUpdate =>
      simp only [Op.createsAt, List.mem_singleton]
      intro e
      exact hCrop name price lastUpdate (e ▸ hop)
    | CreateBid c cropName farmerAadhar basePrice date expiry =>
      simp only [Op.createsAt, List.mem_singleton]
      intro e
      have : c = cropId := bid_key_inj e.symm
      exact hBid cropName farmerAadhar basePrice date expiry (this ▸ hop)
    | _ => simp [Op.createsAt]
  exact ⟨makeBid_of_absent habs _ _ _,
    congrArg (commit _) (makeBid_of_absent habs companyName bidPrice timestamp)⟩

/-- Witness of the amended C4: after seeding, a bid for another crop and a farmer,
`MakeBid("c1", ...)` is rejected. -/
theorem makeBid_without_bid_rejected_witness :
    MakeBid (run emptyLedger [.InitLedger,
        .CreateBid (go "c2") (go "rice") (go "111122223333") ⟨40, by decide⟩
          (go "2024-01-01") (go "2024-02-01"),
        .CreateFarmer (go "f9") (go "Asha") (go "111122223333")]) (go "c1") (go "Agro")
        ⟨50, by decide⟩ (go "2024-01-05") =
      .error (.errorf (go "bid for crop " ++ go "c1" ++ go " not found")) ∧
    exec (run emptyLedger [.InitLedger,
        .CreateBid (go "c2") (go "rice") (go "111122223333") ⟨40, by decide⟩
          (go "2024-01-01") (go "2024-02-01"),
        .CreateFarmer (go "f9") (go "Asha") (go "111122223333")])
        (.MakeBid (go "c1") (go "Agro") ⟨50, by decide⟩ (go "2024-01-05")) =
      run emptyLedger [.InitLedger,
        .CreateBid (go "c2") (go "rice") (go "111122223333") ⟨40, by decide⟩
          (go "2024-01-01") (go "2024-02-01"),
        .CreateFarmer (go "f9") (go "Asha") (go "111122223333")] :=
  makeBid_without_bid_rejected _ (go "c1") (go "Agro") ⟨50, by decide⟩ (go "2024-01-05")
    (by simp +decide) (by simp +decide) (by simp +decide) (by simp +decide)

/-- C5, as stated, fails: after `CreateBid("c1", ...)` and one `MakeBid("c1", companyName,
50, "2024-01-05")` whose `companyName` is the one byte 0xFF (not valid UTF-8), both of
which succeed, `GetBid("c1")` returns a `Bidders` slice whose one entry has the
`CompanyName` U+FFFD (the bytes EF BF BD), not the value of the call. -/
theorem bidders_accumulate_counterexample :
    callAll emptyLedger
        [.CreateBid (go "c1") (go "rice") (go "111122223333") ⟨40, by decide⟩
          (go "2024-01-01") (go "2024-02-01"),
         .MakeBid (go "c1") [0xFF] ⟨50, by decide⟩ (go "2024-01-05")] =
      .ok (run emptyLedger
        [.CreateBid (go "c1") (go "rice") (go "111122223333") ⟨40, by decide⟩
          (go "2024-01-01") (go "2024-02-01"),
         .MakeBid (go "c1") [0xFF] ⟨50, by decide⟩ (go "2024-01-05")]) ∧
    GetBid (run emptyLedger
        [.CreateBid (go "c1") (go "rice") (go "111122223333") ⟨40, by decide⟩
          (go "2024-01-01") (go "2024-02-01"),
         .MakeBid (go "c1") [0xFF] ⟨50, by decide⟩ (go "2024-01-05")]) (go "c1") =
      .ok { CropID := go "c1", CropName := go "rice", FarmerAadhar := go "111122223333",
            BasePrice := ⟨40, by decide⟩, Date := go "2024-01-01",
            Expiry := go "2024-02-01",
            Bidders := some [{ CompanyName := [0xEF, 0xBF, 0xBD],
                               BidPrice := ⟨50, by decide⟩,
                               Timestamp := go "2024-01-05" }] } ∧
    ({ CompanyName := [0xEF, 0xBF, 0xBD], BidPrice := ⟨50, by decide⟩,
       Timestamp := go "2024-01-05" } : Bidder) ≠
      { CompanyName := [0xFF], BidPrice := ⟨50, by decide⟩,
        Timestamp := go "2024-01-05" } :=
  ⟨by rfl, by rfl, by decide⟩

/-- C5, amended: after `CreateBid(cropId, ...)` and `N` calls of `MakeBid` on the same
`cropId` (all of them succeed), `GetBid(cropId)` returns the bid as created with a
`Bidders` slice that holds one `Bidder{CompanyName, BidPrice, Timestamp}` for each call,
in call order (so its length is `N`; nothing is merged, dropped or filtered), each string
of the bid and of its bidders coerced to valid UTF-8: a string that is valid UTF-8 is
returned as given, and in one that is not every invalid byte is replaced by U+FFFD. -/
theorem bidders_accumulate (ctx : World) (cropId cropName farmerAadhar : GoString)
    (basePrice : GoInt) (date expiry : GoString)
    (calls : List (GoString × GoInt × GoString)) :
    (∃ ctx', callAll ctx
        (.CreateBid cropId cropName farmerAadhar basePrice date expiry ::
          calls.map fun c => Op.MakeBid cropId c.1 c.2.1 c.2.2) = .ok ctx' ∧
      GetBid ctx' cropId =
        .ok (Bid.coerce
          { CropID := cropId, CropName := cropName, FarmerAadhar := farmerAadhar,
            BasePrice := basePrice, Date := date, Expiry := expiry,
            Bidders := some (calls.map fun c =>
              { CompanyName := c.1, BidPrice := c.2.1, Timestamp := c.2.2 }) })) ∧
    (∀ s : GoString, utf8.ValidString s → json.coerce s = s) := by
  obtain ⟨ctx', h1, h2⟩ := makeBids_accumulate cropId cropName farmerAadhar basePrice date
    expiry calls _ [] (lookup_insert_self (go "BID_" ++ cropId) _ ctx)
  refine ⟨⟨ctx', ?_, ?_⟩, fun s hs => coerce_of_valid hs⟩
  · simp only [callAll, Op.call, createBid_eq]
    exact h1
  · simp only [GetBid, GetState, h2, List.nil_append]
    exact unmarshal_marshal_bid _

/-- Witness of the amended C5 on the empty ledger: two bids with valid UTF-8 arguments are
read back as given, in call order. -/
theorem bidders_accumulate_witness :
    (∃ ctx', callAll emptyLedger
        [.CreateBid (go "c1") (go "rice") (go "111122223333") ⟨40, by decide⟩
          (go "2024-01-01") (go "2024-02-01"),
         .MakeBid (go "c1") (go "Agro") ⟨50, by decide⟩ (go "2024-01-05"),
         .MakeBid (go "c1") (go "Burra") ⟨45, by decide⟩ (go "2024-01-06")] = .ok ctx' ∧
      GetBid ctx' (go "c1") =
        .ok { CropID := go "c1", CropName := go "rice", FarmerAadhar := go "111122223333",
              BasePrice := ⟨40, by decide⟩, Date := go "2024-01-01",
              Expiry := go "2024-02-01",
              Bidders := some [
                { CompanyName := go "Agro", BidPrice := ⟨50, by decide⟩,
                  Timestamp := go "2024-01-05" },
                { CompanyName := go "Burra", BidPrice := ⟨45, by decide⟩,
                  Timestamp := go "2024-01-06" }] }) ∧
    json.coerce (go "Agro") = go "Agro" := by
  have h := bidders_accumulate emptyLedger (go "c1") (go "rice") (go "111122223333")
    ⟨40, by decide⟩ (go "2024-01-01") (go "2024-02-01")
    [(go "Agro", ⟨50, by decide⟩, go "2024-01-05"),
     (go "Burra", ⟨45, by decide⟩, go "2024-01-06")]
  obtain ⟨⟨ctx', h1, h2⟩, h3⟩ := h
  exact ⟨⟨ctx', h1, h2.trans (by rfl)⟩, h3 _ ⟨"Agro", rfl⟩⟩

/-- C6, as stated, fails: `CreateCrop` does not succeed on every call, for the ledger
rejects the empty key: `CreateCrop("", "rice", 38, "2024-01-01")` on the empty ledger
fails with the error of `PutState`.  And what is read after a create is the data of the
call with invalid UTF-8 replaced: a crop created with the name 0xFF is read back with the
name U+FFFD. -/
theorem crop_bid_create_counterexample :
    CreateCrop emptyLedger [] (go "rice") ⟨38, by decide⟩ (go "2024-01-01") =
      .error (.stub (go "key must not be an empty string")) ∧
    GetCrop (run emptyLedger
        [.CreateCrop (go "c1") (go "rice") ⟨38, by decide⟩ (go "2024-01-01"),
         .CreateCrop (go "c1") [0xFF] ⟨39, by decide⟩ (go "2024-01-02")]) (go "c1") =
      .ok { ID := go "c1", Name := [0xEF, 0xBF, 0xBD], Price := ⟨39, by decide⟩,
            LastUpdate := go "2024-01-02" } ∧
    ({ ID := go "c1", Name := [0xEF, 0xBF, 0xBD], Price := ⟨39, by decide⟩,
       LastUpdate := go "2024-01-02" } : Crop) ≠
      { ID := go "c1", Name := [0xFF], Price := ⟨39, by decide⟩,
        LastUpdate := go "2024-01-02" } :=
  ⟨by rfl, by rfl, by decide⟩

/-- C6, amended: `CreateCrop` with a non-empty id and `CreateBid` succeed on every ledger
state, whatever is stored under the key (`CreateCrop` with the empty id fails, on every
ledger state, with the error of `PutState`); called twice with the same id both calls
succeed and the read that follows returns the data of the second call only, each string
coerced to valid UTF-8 (a string that is valid UTF-8 is returned as given); and a
`CreateBid` after `MakeBid` calls on the bid leaves it with an empty `Bidders` slice. -/
theorem crop_bid_create_overwrites (ctx : World) :
    (∀ (id name : GoString) (price : GoInt) (lastUpdate : GoString), id ≠ [] →
      ∃ ctx', CreateCrop ctx id name price lastUpdate = .ok ctx') ∧
    (∀ (name : GoString) (price : GoInt) (lastUpdate : GoString),
      CreateCrop ctx [] name price lastUpdate =
        .error (.stub (go "key must not be an empty string"))) ∧
    (∀ (cropId cropName farmerAadhar : GoString) (basePrice : GoInt)
        (date expiry : GoString),
      ∃ ctx', CreateBid ctx cropId cropName farmerAadhar basePrice date expiry = .ok ctx') ∧
    (∀ (id name name' : GoString) (price price' : GoInt)
        (lastUpdate lastUpdate' : GoString), id ≠ [] →
      ∃ ctx', callAll ctx [.CreateCrop id name price lastUpdate,
          .CreateCrop id name' price' lastUpdate'] = .ok ctx' ∧
        GetCrop ctx' id =
          .ok (Crop.coerce
            { ID := id, Name := name', Price := price', LastUpdate := lastUpdate' })) ∧
    (∀ (cropId cropName farmerAadhar cropName' farmerAadhar' : GoString)
        (basePrice basePrice' : GoInt) (date expiry date' expiry' : GoString)
        (calls : List (GoString × GoInt × GoString)),
      ∃ ctx', callAll ctx
          (.CreateBid cropId cropName farmerAadhar basePrice date expiry ::
            (calls.map fun c => Op.MakeBid cropId c.1 c.2.1 c.2.2) ++
            [.CreateBid cropId cropName' farmerAadhar' basePrice' date' expiry']) =
          .ok ctx' ∧
        GetBid ctx' cropId =
          .ok (Bid.coerce
            { CropID := cropId, CropName := cropName', FarmerAadhar := farmerAadhar',
              BasePrice := basePrice', Date := date', Expiry := expiry',
              Bidders := some [] })) ∧
    (∀ s : GoString, utf8.ValidString s → json.coerce s = s) := by
  refine ⟨fun id name price lastUpdate hid => ⟨_, createCrop_of_ne hid ctx name price lastUpdate⟩,
    fun name price lastUpdate => createCrop_nil ctx name price lastUpdate,
    fun cropId cropName farmerAadhar basePrice date expiry =>
      ⟨_, createBid_eq ctx cropId cropName farmerAadhar basePrice date expiry⟩, ?_, ?_,
    fun s hs => coerce_of_valid hs⟩
  · intro id name name' price price' lastUpdate lastUpdate' hid
    have h1 : callAll ctx [.CreateCrop id name price lastUpdate,
        .CreateCrop id name' price' lastUpdate'] =
        .ok (insert id (.doc (.obj (GoStruct.members
          ({ ID := id, Name := name', Price := price', LastUpdate := lastUpdate' } : Crop))))
          (insert id (.doc (.obj (GoStruct.members
            ({ ID := id, Name := name, Price := price, LastUpdate := lastUpdate } : Crop))))
            ctx)) := by
      simp only [callAll, Op.call, createCrop_of_ne hid]
    refine ⟨_, h1, ?_⟩
    simp only [GetCrop, GetState, lookup_insert_self]
    exact unmarshal_marshal_crop _
  · intro cropId cropName farmerAadhar cropName' farmerAadhar' basePrice basePrice' date
      expiry date' expiry' calls
    obtain ⟨ctx1, h1, _⟩ := makeBids_accumulate cropId cropName farmerAadhar basePrice date
      expiry calls _ [] (lookup_insert_self (go "BID_" ++ cropId) _ ctx)
    have h2 : callAll ctx (.CreateBid cropId cropName farmerAadhar basePrice date expiry ::
        calls.map fun c => Op.MakeBid cropId c.1 c.2.1 c.2.2) = .ok ctx1 := by
      simp only [callAll, Op.call, createBid_eq]
      exact h1
    have h3 := callAll_append _
      [Op.CreateBid cropId cropName' farmerAadhar' basePrice' date' expiry'] ctx ctx1 h2
    refine ⟨_, h3.trans (createBid_eq ctx1 cropId cropName' farmerAadhar' basePrice' date'
      expiry'), ?_⟩
    simp only [GetBid, GetState, lookup_insert_self]
    exact unmarshal_marshal_bid _

/-- Witness of the amended C6: on the seeded ledger a crop is created twice under the
non-empty id `c1`; both calls succeed and the second call is what is read. -/
theorem crop_bid_create_overwrites_witness :
    go "c1" ≠ [] ∧
    ∃ ctx', callAll (run emptyLedger [.InitLedger])
        [.CreateCrop (go "c1") (go "rice") ⟨38, by decide⟩ (go "2024-01-01"),
         .CreateCrop (go "c1") (go "wheat") ⟨39, by decide⟩ (go "2024-01-02")] =
        .ok ctx' ∧
      GetCrop ctx' (go "c1") =
        .ok { ID := go "c1", Name := go "wheat", Price := ⟨39, by decide⟩,
              LastUpdate := go "2024-01-02" } := by
  obtain ⟨ctx', h1, h2⟩ := (crop_bid_create_overwrites
    (run emptyLedger [.InitLedger])).2.2.2.1 (go "c1") (go "rice") (go "wheat")
    ⟨38, by decide⟩ ⟨39, by decide⟩ (go "2024-01-01") (go "2024-01-02") (by decide)
  exact ⟨by decide, ctx', h1, h2.trans (by rfl)⟩

/-! ## Listing -/

/-- C7: on the empty ledger `InitLedger` succeeds, and `GetAllFarmers` on the ledger it
leaves succeeds and returns exactly the four seeded farmers `farmer1` .. `farmer4`, with
the seeded names and Aadhar numbers, and nothing else. -/
theorem seed_then_list :
    ∃ ctx', InitLedger emptyLedger = .ok ctx' ∧
      GetAllFarmers ctx' = .ok [
        { ID := go "farmer1", Name := go "Ravi Kumar", Aadhar := go "123456789012" },
        { ID := go "farmer2", Name := go "Sunita Sharma", Aadhar := go "234567890123" },
        { ID := go "farmer3", Name := go "Amit Patel", Aadhar := go "345678901234" },
        { ID := go "farmer4", Name := go "Geeta Verma", Aadhar := go "456789012345" }] :=
  ⟨_, by rfl, by rfl⟩

/-- C8, as stated, fails: on a ledger whose only value is not a JSON document, the value
decodes neither as a crop nor as a bid, and `GetAllCrops` and `GetAllBids` do not return
an error: they skip the value and succeed with an empty result. -/
theorem crop_bid_scan_counterexample :
    (json.Unmarshal (.malformed "not json") : Except Error Crop) =
      .error (.codec .syntaxError) ∧
    (json.Unmarshal (.malformed "not json") : Except Error Bid) =
      .error (.codec .syntaxError) ∧
    GetAllCrops [(go "k1", .malformed "not json")] = .ok [] ∧
    GetAllBids [(go "k1", .malformed "not json")] = .ok [] :=
  ⟨by rfl, by rfl, by rfl, by rfl⟩

/-- C8, amended: `GetAllCompanies`, `GetAllCrops` and `GetAllBids` succeed on every ledger
state and skip each value that does not decode (they return, in key order, the values that
decode, for crops and bids those with a non-empty `Name`, resp. `CropID`); only
`GetAllFarmers` returns an error when the ledger holds a value that does not decode as a
farmer. -/
theorem scan_codec_failures (ctx : World) :
    GetAllCompanies ctx = .ok
      (ctx.filterMap fun e => (json.Unmarshal e.2 : Except Error Company).toOption) ∧
    GetAllCrops ctx = .ok
      ((ctx.filterMap fun e => (json.Unmarshal e.2 : Except Error Crop).toOption).filter
        fun c => c.Name != []) ∧
    GetAllBids ctx = .ok
      ((ctx.filterMap fun e => (json.Unmarshal e.2 : Except Error Bid).toOption).filter
        fun b => b.CropID != []) ∧
    ((∃ e ∈ ctx, ∃ err, (json.Unmarshal e.2 : Except Error Farmer) = .error err) →
      ∃ err, GetAllFarmers ctx = .error err) := by
  refine ⟨getAllCompanies_eq ctx, getAllCrops_eq ctx, getAllBids_eq ctx, ?_⟩
  intro h
  simp only [GetAllFarmers, getStateByRange_all]
  exact getAllFarmers_loop_error ctx [] h

/-- Witness of the amended C8: a ledger with a company and a value that is no JSON
document. -/
theorem scan_codec_failures_witness :
    (∃ e ∈ ([(go "a1", .malformed "not json"), (go "co1", .doc (.obj [("id", .str "co1"),
        ("name", .str "Agro"), ("gst", .str "29ABCDE1234F1Z5")]))] : World),
      ∃ err, (json.Unmarshal e.2 : Except Error Farmer) = .error err) ∧
    ∃ err, GetAllFarmers [(go "a1", .malformed "not json"),
      (go "co1", .doc (.obj [("id", .str "co1"),
        ("name", .str "Agro"), ("gst", .str "29ABCDE1234F1Z5")]))] = .error err :=
  ⟨⟨_, List.mem_cons_self _ _, _, rfl⟩,
   (scan_codec_failures _).2.2.2 ⟨_, List.mem_cons_self _ _, _, rfl⟩⟩

/-- C9 fails on the code: after `CreateFarmer("f9", "Asha", "111122223333")` on the empty
ledger, no company has been stored, yet `GetAllCompanies` returns one record, the farmer
decoded as `Company{ID: "f9", Name: "Asha", GST: ""}`. -/
theorem getAllCompanies_lists_farmer :
    GetAllCompanies
        (run emptyLedger [.CreateFarmer (go "f9") (go "Asha") (go "111122223333")]) =
      .ok [{ ID := go "f9", Name := go "Asha", GST := go "" }] := by
  rfl

/-- C10, as stated, fails: on the seeded ledger `UpdateFarmer("farmer2", name,
"444455556666")` with a `name` that is the one byte 0xFF (not valid UTF-8) succeeds, and
`ReadFarmer("farmer2")` then returns a farmer whose `Name` is U+FFFD (the bytes EF BF BD),
not the `name` given. -/
theorem update_full_replace_counterexample :
    (∃ v, lookup (go "farmer2") (run emptyLedger [.InitLedger]) = some v) ∧
    UpdateFarmer (run emptyLedger [.InitLedger]) (go "farmer2") [0xFF]
        (go "444455556666") =
      .ok (run emptyLedger
        [.InitLedger, .UpdateFarmer (go "farmer2") [0xFF] (go "444455556666")]) ∧
    ReadFarmer (run emptyLedger
        [.InitLedger, .UpdateFarmer (go "farmer2") [0xFF] (go "444455556666")])
        (go "farmer2") =
      .ok { ID := go "farmer2", Name := [0xEF, 0xBF, 0xBD], Aadhar := go "444455556666" } ∧
    ({ ID := go "farmer2", Name := [0xEF, 0xBF, 0xBD],
       Aadhar := go "444455556666" } : Farmer) ≠
      { ID := go "farmer2", Name := [0xFF], Aadhar := go "444455556666" } :=
  ⟨⟨_, by rfl⟩, by rfl, by rfl, by decide⟩

/-- C10, amended: on a ledger that holds a value under `id` (and, as on every ledger the
stub has written, none under the empty key), `UpdateFarmer(id, name, aadhar)` succeeds,
`ReadFarmer(id)` then returns `Farmer{ID: id, Name: name, Aadhar: aadhar}` with each
string coerced to valid UTF-8 (a string that is valid UTF-8 is returned as given, and in
one that is not every invalid byte is replaced by U+FFFD), and the value under every other
key is unchanged; the same for `UpdateCompany` and `ReadCompany` with
`Company{ID: id, Name: name, GST: gst}`. -/
theorem update_full_replace (ctx : World) (id : GoString) (v : Bytes)
    (h : lookup id ctx = some v) (hempty : lookup [] ctx = none) :
    (∀ name aadhar : GoString, ∃ ctx', UpdateFarmer ctx id name aadhar = .ok ctx' ∧
      ReadFarmer ctx' id =
        .ok (Farmer.coerce { ID := id, Name := name, Aadhar := aadhar }) ∧
      ∀ key, key ≠ id → lookup key ctx' = lookup key ctx) ∧
    (∀ name gst : GoString, ∃ ctx', UpdateCompany ctx id name gst = .ok ctx' ∧
      ReadCompany ctx' id = .ok (Company.coerce { ID := id, Name := name, GST := gst }) ∧
      ∀ key, key ≠ id → lookup key ctx' = lookup key ctx) ∧
    (∀ s : GoString, utf8.ValidString s → json.coerce s = s) := by
  have hid : id ≠ [] := by
    intro e
    rw [e, hempty] at h
    cases h
  refine ⟨?_, ?_, fun s hs => coerce_of_valid hs⟩
  · intro name aadhar
    refine ⟨_, updateFarmer_of_present h hid name aadhar, ?_, fun key hk => lookup_insert_ne hk _ _⟩
    simp only [ReadFarmer, GetState, lookup_insert_self]
    exact unmarshal_marshal_farmer _
  · intro name gst
    refine ⟨_, updateCompany_of_present h hid name gst, ?_, fun key hk => lookup_insert_ne hk _ _⟩
    simp only [ReadCompany, GetState, lookup_insert_self]
    exact unmarshal_marshal_company _

/-- Witness of the amended C10: the seeded `farmer2` is replaced with valid UTF-8
arguments, and read back as given. -/
theorem update_full_replace_witness :
    (∃ v, lookup (go "farmer2") (run emptyLedger [.InitLedger]) = some v) ∧
    lookup [] (run emptyLedger [.InitLedger]) = none ∧
    ∃ ctx', UpdateFarmer (run emptyLedger [.InitLedger]) (go "farmer2") (go "Bina")
        (go "444455556666") = .ok ctx' ∧
      ReadFarmer ctx' (go "farmer2") =
        .ok { ID := go "farmer2", Name := go "Bina", Aadhar := go "444455556666" } ∧
      ∀ key, key ≠ go "farmer2" →
        lookup key ctx' = lookup key (run emptyLedger [.InitLedger]) := by
  obtain ⟨ctx', h1, h2, h3⟩ := (update_full_replace (run emptyLedger [.InitLedger])
    (go "farmer2") _ (by rfl) (by rfl)).1 (go "Bina") (go "444455556666")
  exact ⟨⟨_, by rfl⟩, by rfl, ctx', h1, h2.trans (by rfl), h3⟩

/-! ## Delete, append, scan of crops, existence -/

/-- C11: on a ledger that holds a value under `id`, `DeleteFarmer(id)` succeeds; on the
ledger it leaves `FarmerExists(id)` is false, `ReadFarmer(id)` and a second
`DeleteFarmer(id)` fail with the not-found error, and the value under every other key is
unchanged.  The same holds for `DeleteCompany`, `CompanyExists` and `ReadCompany`. -/
theorem delete_removes_key (ctx : World) (id : GoString) (v : Bytes) (hctx : Ascending ctx)
    (h : lookup id ctx = some v) :
    (∃ ctx', DeleteFarmer ctx id = .ok ctx' ∧
      FarmerExists ctx' id = .ok false ∧
      ReadFarmer ctx' id =
        .error (.errorf (go "the farmer " ++ id ++ go " does not exist")) ∧
      DeleteFarmer ctx' id =
        .error (.errorf (go "the farmer " ++ id ++ go " does not exist")) ∧
      ∀ key, key ≠ id → lookup key ctx' = lookup key ctx) ∧
    (∃ ctx', DeleteCompany ctx id = .ok ctx' ∧
      CompanyExists ctx' id = .ok false ∧
      ReadCompany ctx' id =
        .error (.errorf (go "the company " ++ id ++ go " does not exist")) ∧
      DeleteCompany ctx' id =
        .error (.errorf (go "the company " ++ id ++ go " does not exist")) ∧
      ∀ key, key ≠ id → lookup key ctx' = lookup key ctx) := by
  have hgone : lookup id (erase id ctx) = none := lookup_erase_self id hctx
  constructor
  · refine ⟨erase id ctx, deleteFarmer_of_present h, ?_, ?_, deleteFarmer_of_absent hgone,
      fun key hk => lookup_erase_ne hk ctx⟩
    · simp [FarmerExists, GetState, hgone]
    · simp [ReadFarmer, GetState, hgone]
  · refine ⟨erase id ctx, deleteCompany_of_present h, ?_, ?_, deleteCompany_of_absent hgone,
      fun key hk => lookup_erase_ne hk ctx⟩
    · simp [CompanyExists, GetState, hgone]
    · simp [ReadCompany, GetState, hgone]

/-- Witness of C11: the seeded `farmer2` is deleted from the seeded ledger. -/
theorem delete_removes_key_witness :
    Ascending (run emptyLedger [.InitLedger]) ∧
    lookup (go "farmer2") (run emptyLedger [.InitLedger]) =
      some (.doc (.obj [("aadhar", .str "234567890123"), ("id", .str "farmer2"),
        ("name", .str "Sunita Sharma")])) ∧
    ∃ ctx', DeleteFarmer (run emptyLedger [.InitLedger]) (go "farmer2") = .ok ctx' ∧
      FarmerExists ctx' (go "farmer2") = .ok false ∧
      ReadFarmer ctx' (go "farmer2") =
        .error (.errorf (go "the farmer " ++ go "farmer2" ++ go " does not exist")) ∧
      DeleteFarmer ctx' (go "farmer2") =
        .error (.errorf (go "the farmer " ++ go "farmer2" ++ go " does not exist")) ∧
      ∀ key, key ≠ go "farmer2" →
        lookup key ctx' = lookup key (run emptyLedger [.InitLedger]) :=
  ⟨run_ascending [.InitLedger] List.Pairwise.nil, by rfl,
   (delete_removes_key (run emptyLedger [.InitLedger]) (go "farmer2") _
     (run_ascending [.InitLedger] List.Pairwise.nil) (by rfl)).1⟩

/-- C12, as stated, fails: on the ledger that holds the bid `c1` without bidders,
`MakeBid("c1", companyName, 50, "2024-01-05")` with a `companyName` that is the one byte
0xFF (not valid UTF-8) succeeds, and the entry of `Bidders` that `GetBid("c1")` then
returns has the `CompanyName` U+FFFD (the bytes EF BF BD), not the one given. -/
theorem makeBid_appends_counterexample :
    GetBid (run emptyLedger
        [.CreateBid (go "c1") (go "rice") (go "111122223333") ⟨40, by decide⟩
          (go "2024-01-01") (go "2024-02-01")]) (go "c1") =
      .ok { CropID := go "c1", CropName := go "rice", FarmerAadhar := go "111122223333",
            BasePrice := ⟨40, by decide⟩, Date := go "2024-01-01",
            Expiry := go "2024-02-01", Bidders := some [] } ∧
    MakeBid (run emptyLedger
        [.CreateBid (go "c1") (go "rice") (go "111122223333") ⟨40, by decide⟩
          (go "2024-01-01") (go "2024-02-01")]) (go "c1") [0xFF] ⟨50, by decide⟩
        (go "2024-01-05") =
      .ok (run emptyLedger
        [.CreateBid (go "c1") (go "rice") (go "111122223333") ⟨40, by decide⟩
          (go "2024-01-01") (go "2024-02-01"),
         .MakeBid (go "c1") [0xFF] ⟨50, by decide⟩ (go "2024-01-05")]) ∧
    GetBid (run emptyLedger
        [.CreateBid (go "c1") (go "rice") (go "111122223333") ⟨40, by decide⟩
          (go "2024-01-01") (go "2024-02-01"),
         .MakeBid (go "c1") [0xFF] ⟨50, by decide⟩ (go "2024-01-05")]) (go "c1") =
      .ok { CropID := go "c1", CropName := go "rice", FarmerAadhar := go "111122223333",
            BasePrice := ⟨40, by decide⟩, Date := go "2024-01-01",
            Expiry := go "2024-02-01",
            Bidders := some [{ CompanyName := [0xEF, 0xBF, 0xBD],
                               BidPrice := ⟨50, by decide⟩,
                               Timestamp := go "2024-01-05" }] } ∧
    ({ CompanyName := [0xEF, 0xBF, 0xBD], BidPrice := ⟨50, by decide⟩,
       Timestamp := go "2024-01-05" } : Bidder) ≠
      { CompanyName := [0xFF], BidPrice := ⟨50, by decide⟩,
        Timestamp := go "2024-01-05" } :=
  ⟨by rfl, by rfl, by rfl, by decide⟩

/-- C12, amended: on a ledger where `GetBid(cropId)` returns the bid `b`,
`MakeBid(cropId, companyName, bidPrice, timestamp)` succeeds, and `GetBid(cropId)` then
returns `b` with `CropID`, `CropName`, `FarmerAadhar`, `BasePrice`, `Date` and `Expiry`
unchanged and with `Bidders` equal to the bidders of `b`, unchanged, followed by the one
new `Bidder{companyName, bidPrice, timestamp}` with its strings coerced to valid UTF-8: a
string that is valid UTF-8 is stored as given, and in one that is not every invalid byte
is replaced by U+FFFD. -/
theorem makeBid_appends (ctx : World) (cropId companyName : GoString) (bidPrice : GoInt)
    (timestamp : GoString) (b : Bid) (h : GetBid ctx cropId = .ok b) :
    (∃ ctx', MakeBid ctx cropId companyName bidPrice timestamp = .ok ctx' ∧
      GetBid ctx' cropId =
        .ok { CropID := b.CropID, CropName := b.CropName, FarmerAadhar := b.FarmerAadhar,
              BasePrice := b.BasePrice, Date := b.Date, Expiry := b.Expiry,
              Bidders := some (b.Bidders.getD [] ++
                [Bidder.coerce { CompanyName := companyName, BidPrice := bidPrice,
                                 Timestamp := timestamp }]) }) ∧
    (∀ s : GoString, utf8.ValidString s → json.coerce s = s) := by
  obtain ⟨data, hl, hb⟩ := getBid_ok h
  have hfix := unmarshal_bid_fixed hb
  refine ⟨⟨_, makeBid_of_bid hl hb companyName bidPrice timestamp, ?_⟩,
    fun s hs => coerce_of_valid hs⟩
  simp only [GetBid, GetState, lookup_insert_self]
  refine (unmarshal_marshal_bid _).trans ?_
  obtain ⟨c1, c2, c3, c4, c5, c6, bs⟩ := b
  simp only [Bid.coerce, Bid.mk.injEq] at hfix
  obtain ⟨e1, e2, e3, -, e5, e6, e7⟩ := hfix
  cases bs with
  | none => simp [Bid.coerce, append, e1, e2, e3, e5, e6]
  | some l =>
    simp only [Option.map_some', Option.some.injEq] at e7
    simp [Bid.coerce, append, e1, e2, e3, e5, e6, e7]

/-- Witness of the amended C12: a second bidder, with valid UTF-8 arguments, is appended
to a bid that holds one. -/
theorem makeBid_appends_witness :
    GetBid (run emptyLedger [
        .CreateBid (go "c1") (go "rice") (go "111122223333") ⟨40, by decide⟩
          (go "2024-01-01") (go "2024-02-01"),
        .MakeBid (go "c1") (go "Agro") ⟨50, by decide⟩ (go "2024-01-05")]) (go "c1") =
      .ok { CropID := go "c1", CropName := go "rice", FarmerAadhar := go "111122223333",
            BasePrice := ⟨40, by decide⟩, Date := go "2024-01-01",
            Expiry := go "2024-02-01",
            Bidders := some [
              { CompanyName := go "Agro", BidPrice := ⟨50, by decide⟩,
                Timestamp := go "2024-01-05" }] } ∧
    ∃ ctx', MakeBid (run emptyLedger [
        .CreateBid (go "c1") (go "rice") (go "111122223333") ⟨40, by decide⟩
          (go "2024-01-01") (go "2024-02-01"),
        .MakeBid (go "c1") (go "Agro") ⟨50, by decide⟩ (go "2024-01-05")]) (go "c1")
        (go "Bharat Foods") ⟨45, by decide⟩ (go "2024-01-06") = .ok ctx' ∧
      GetBid ctx' (go "c1") =
        .ok { CropID := go "c1", CropName := go "rice", FarmerAadhar := go "111122223333",
              BasePrice := ⟨40, by decide⟩, Date := go "2024-01-01",
              Expiry := go "2024-02-01",
              Bidders := some [
                { CompanyName := go "Agro", BidPrice := ⟨50, by decide⟩,
                  Timestamp := go "2024-01-05" },
                { CompanyName := go "Bharat Foods", BidPrice := ⟨45, by decide⟩,
                  Timestamp := go "2024-01-06" }] } := by
  obtain ⟨ctx', h1, h2⟩ := (makeBid_appends
    (run emptyLedger [
      .CreateBid (go "c1") (go "rice") (go "111122223333") ⟨40, by decide⟩
        (go "2024-01-01") (go "2024-02-01"),
      .MakeBid (go "c1") (go "Agro") ⟨50, by decide⟩ (go "2024-01-05")])
    (go "c1") (go "Bharat Foods") ⟨45, by decide⟩ (go "2024-01-06")
    { CropID := go "c1", CropName := go "rice", FarmerAadhar := go "111122223333",
      BasePrice := ⟨40, by decide⟩, Date := go "2024-01-01", Expiry := go "2024-02-01",
      Bidders := some [
        { CompanyName := go "Agro", BidPrice := ⟨50, by decide⟩,
          Timestamp := go "2024-01-05" }] }
    (by rfl)).1
  exact ⟨by rfl, ctx', h1, h2.trans (by rfl)⟩

/-- C13: the range scan over the whole key space delivers the entries of the ledger in
store order, and `GetAllCrops` succeeds and returns, in that order, exactly the values that
decode as a crop with a non-empty `Name`; so a crop that a successful
`CreateCrop(id, "", price, lastUpdate)` has stored is returned by `GetCrop(id)`, with the
empty `Name`, and is not in the result of `GetAllCrops`. -/
theorem getAllCrops_is_filter (ctx : World) :
    GetStateByRange ctx [] [] = .ok ctx ∧
    GetAllCrops ctx = .ok
      ((ctx.filterMap fun e => (json.Unmarshal e.2 : Except Error Crop).toOption).filter
        fun c => c.Name != []) ∧
    (∀ (id : GoString) (price : GoInt) (lastUpdate : GoString) (ctx' : World),
      CreateCrop ctx id [] price lastUpdate = .ok ctx' →
      ∃ crop crops, GetCrop ctx' id = .ok crop ∧
        crop = Crop.coerce
          { ID := id, Name := [], Price := price, LastUpdate := lastUpdate } ∧
        crop.Name = [] ∧
        GetAllCrops ctx' = .ok crops ∧
        (∀ c ∈ crops, c.Name ≠ []) ∧
        crop ∉ crops) := by
  refine ⟨getStateByRange_all ctx, getAllCrops_eq ctx, ?_⟩
  intro id price lastUpdate ctx' h
  have hall : ∀ c ∈ ((ctx'.filterMap
      fun e => (json.Unmarshal e.2 : Except Error Crop).toOption).filter
        fun c => c.Name != []), c.Name ≠ [] := by
    intro c hc
    have := (List.mem_filter.mp hc).2
    simpa using this
  have hname : (Crop.coerce
      { ID := id, Name := [], Price := price, LastUpdate := lastUpdate }).Name = [] :=
    coerce_nil
  refine ⟨_, _, ?_, rfl, hname, getAllCrops_eq _, hall, fun hmem => hall _ hmem hname⟩
  by_cases hid : id = []
  · subst hid
    simp [createCrop_nil] at h
  · simp only [createCrop_of_ne hid, Except.ok.injEq] at h
    subst h
    simp only [GetCrop, GetState, lookup_insert_self]
    exact unmarshal_marshal_crop _

/-- Witness of C13 on the seeded ledger: the crop `c1` is stored with the empty name, read
by `GetCrop` and not listed by `GetAllCrops`. -/
theorem getAllCrops_is_filter_witness :
    CreateCrop (run emptyLedger [.InitLedger]) (go "c1") [] ⟨38, by decide⟩
        (go "2024-01-01") =
      .ok (run emptyLedger
        [.InitLedger, .CreateCrop (go "c1") [] ⟨38, by decide⟩ (go "2024-01-01")]) ∧
    ∃ crop crops,
      GetCrop (run emptyLedger
        [.InitLedger, .CreateCrop (go "c1") [] ⟨38, by decide⟩ (go "2024-01-01")])
        (go "c1") = .ok crop ∧
      crop =
        { ID := go "c1", Name := [], Price := ⟨38, by decide⟩,
          LastUpdate := go "2024-01-01" } ∧
      GetAllCrops (run emptyLedger
        [.InitLedger, .CreateCrop (go "c1") [] ⟨38, by decide⟩ (go "2024-01-01")]) =
        .ok crops ∧
      crop ∉ crops := by
  obtain ⟨crop, crops, h1, h2, -, h4, -, h6⟩ := (getAllCrops_is_filter
    (run emptyLedger [.InitLedger])).2.2 (go "c1") ⟨38, by decide⟩ (go "2024-01-01")
    (run emptyLedger
      [.InitLedger, .CreateCrop (go "c1") [] ⟨38, by decide⟩ (go "2024-01-01")]) (by rfl)
  exact ⟨by rfl, crop, crops, h1, h2.trans (by rfl), h4, h6⟩

/-- C15: `FarmerExists(id)` and `CompanyExists(id)` return, without error, whether the
state store holds a value under the key `id` (`GetState` does not return `nil`), whichever
function wrote the value; they only read the ledger. -/
theorem exists_is_key_presence (ctx : World) (id : GoString) :
    GetState ctx id = .ok (lookup id ctx) ∧
    FarmerExists ctx id = .ok (lookup id ctx).isSome ∧
    CompanyExists ctx id = .ok (lookup id ctx).isSome ∧
    (FarmerExists ctx id = .ok true ↔ ∃ v, lookup id ctx = some v) ∧
    (CompanyExists ctx id = .ok true ↔ ∃ v, lookup id ctx = some v) := by
  refine ⟨rfl, rfl, rfl, ?_, ?_⟩
  · simp [FarmerExists, GetState, Option.isSome_iff_exists]
  · simp [CompanyExists, GetState, Option.isSome_iff_exists]

/-- C16: for every farmer, company, crop and bid `r` (a bid with any slice of bidders,
`nil` included), `json.Unmarshal` of `json.Marshal(r)` succeeds, and `json.Marshal` of the
record it yields gives the bytes of `json.Marshal(r)` again. -/
theorem codec_idempotent :
    (∀ r : Farmer, ∃ data r', json.Marshal r = .ok data ∧
      (json.Unmarshal data : Except Error Farmer) = .ok r' ∧ json.Marshal r' = .ok data) ∧
    (∀ r : Company, ∃ data r', json.Marshal r = .ok data ∧
      (json.Unmarshal data : Except Error Company) = .ok r' ∧ json.Marshal r' = .ok data) ∧
    (∀ r : Crop, ∃ data r', json.Marshal r = .ok data ∧
      (json.Unmarshal data : Except Error Crop) = .ok r' ∧ json.Marshal r' = .ok data) ∧
    (∀ r : Bid, ∃ data r', json.Marshal r = .ok data ∧
      (json.Unmarshal data : Except Error Bid) = .ok r' ∧ json.Marshal r' = .ok data) :=
  ⟨fun r => ⟨_, r.coerce, rfl, unmarshal_marshal_farmer r, by
      simp only [json.Marshal, members_coerce_farmer]⟩,
   fun r => ⟨_, r.coerce, rfl, unmarshal_marshal_company r, by
      simp only [json.Marshal, members_coerce_company]⟩,
   fun r => ⟨_, r.coerce, rfl, unmarshal_marshal_crop r, by
      simp only [json.Marshal, members_coerce_crop]⟩,
   fun r => ⟨_, r.coerce, rfl, unmarshal_marshal_bid r, by
      simp only [json.Marshal, members_coerce_bid]⟩⟩

/-! ## Frames and kind-blind calls -/

/-- C17: a successful `CreateBid(cropId, ...)` or `MakeBid(cropId, ...)` writes under the
key `"BID_" + cropId` and leaves the value under every other key as it was; so what is
stored under the plain key `cropId` reads the same through `GetCrop(cropId)`, and
`GetBid(cropId')` is unchanged for every other `cropId'`. -/
theorem bid_writes_frame (ctx ctx' : World) (cropId : GoString) :
    (∀ (cropName farmerAadhar : GoString) (basePrice : GoInt) (date expiry : GoString),
      CreateBid ctx cropId cropName farmerAadhar basePrice date expiry = .ok ctx' →
      (∃ data, lookup (go "BID_" ++ cropId) ctx' = some data) ∧
      (∀ key, key ≠ go "BID_" ++ cropId → lookup key ctx' = lookup key ctx) ∧
      GetCrop ctx' cropId = GetCrop ctx cropId ∧
      ∀ cropId', cropId' ≠ cropId → GetBid ctx' cropId' = GetBid ctx cropId') ∧
    (∀ (companyName : GoString) (bidPrice : GoInt) (timestamp : GoString),
      MakeBid ctx cropId companyName bidPrice timestamp = .ok ctx' →
      (∃ data, lookup (go "BID_" ++ cropId) ctx' = some data) ∧
      (∀ key, key ≠ go "BID_" ++ cropId → lookup key ctx' = lookup key ctx) ∧
      GetCrop ctx' cropId = GetCrop ctx cropId ∧
      ∀ cropId', cropId' ≠ cropId → GetBid ctx' cropId' = GetBid ctx cropId') := by
  constructor
  · intro cropName farmerAadhar basePrice date expiry h
    rw [createBid_eq] at h
    have h' := (Except.ok.inj h).symm
    subst h'
    exact ⟨⟨_, lookup_insert_self _ _ _⟩, frame_of_bid_write _⟩
  · intro companyName bidPrice timestamp h
    obtain ⟨data, bid, _, _, h'⟩ := makeBid_ok h
    subst h'
    exact ⟨⟨_, lookup_insert_self _ _ _⟩, frame_of_bid_write _⟩

/-- Witness of C17: a bid is placed on the crop `c1`, which is stored next to the bid. -/
theorem bid_writes_frame_witness :
    MakeBid (run emptyLedger [
        .CreateCrop (go "c1") (go "rice") ⟨38, by decide⟩ (go "2024-01-01"),
        .CreateBid (go "c1") (go "rice") (go "111122223333") ⟨40, by decide⟩
          (go "2024-01-01") (go "2024-02-01")])
        (go "c1") (go "Agro") ⟨50, by decide⟩ (go "2024-01-05") =
      .ok (run emptyLedger [
        .CreateCrop (go "c1") (go "rice") ⟨38, by decide⟩ (go "2024-01-01"),
        .CreateBid (go "c1") (go "rice") (go "111122223333") ⟨40, by decide⟩
          (go "2024-01-01") (go "2024-02-01"),
        .MakeBid (go "c1") (go "Agro") ⟨50, by decide⟩ (go "2024-01-05")]) ∧
    GetCrop (run emptyLedger [
        .CreateCrop (go "c1") (go "rice") ⟨38, by decide⟩ (go "2024-01-01"),
        .CreateBid (go "c1") (go "rice") (go "111122223333") ⟨40, by decide⟩
          (go "2024-01-01") (go "2024-02-01"),
        .MakeBid (go "c1") (go "Agro") ⟨50, by decide⟩ (go "2024-01-05")]) (go "c1") =
      GetCrop (run emptyLedger [
        .CreateCrop (go "c1") (go "rice") ⟨38, by decide⟩ (go "2024-01-01"),
        .CreateBid (go "c1") (go "rice") (go "111122223333") ⟨40, by decide⟩
          (go "2024-01-01") (go "2024-02-01")])
        (go "c1") :=
  ⟨by rfl, ((bid_writes_frame
      (run emptyLedger [
        .CreateCrop (go "c1") (go "rice") ⟨38, by decide⟩ (go "2024-01-01"),
        .CreateBid (go "c1") (go "rice") (go "111122223333") ⟨40, by decide⟩
          (go "2024-01-01") (go "2024-02-01")])
      (run emptyLedger [
        .CreateCrop (go "c1") (go "rice") ⟨38, by decide⟩ (go "2024-01-01"),
        .CreateBid (go "c1") (go "rice") (go "111122223333") ⟨40, by decide⟩
          (go "2024-01-01") (go "2024-02-01"),
        .MakeBid (go "c1") (go "Agro") ⟨50, by decide⟩ (go "2024-01-05")])
      (go "c1")).2 (go "Agro") ⟨50, by decide⟩ (go "2024-01-05") (by rfl)).2.2.1⟩

/-- C19: `DeleteFarmer(id)` and `DeleteCompany(id)` succeed on the same ledgers, fail on
the same ledgers and leave the same ledger; `UpdateFarmer(id, ...)` and
`UpdateCompany(id, ...)` succeed whenever a value, written by whichever function, is
stored under `id` (on a ledger that, as every ledger the stub has written, holds nothing
under the empty key), and put their record in its place: after `CreateCompany(id, ...)` or
`CreateCrop(id, ...)`, `UpdateFarmer(id, ...)` succeeds and the farmer is what is stored
under `id` (read back as the codec returns it, each string coerced to valid UTF-8). -/
theorem farmer_company_mutators_kind_blind (ctx : World) (id : GoString) :
    (DeleteFarmer ctx id).toOption = (DeleteCompany ctx id).toOption ∧
    exec ctx (.DeleteFarmer id) = exec ctx (.DeleteCompany id) ∧
    (∀ v, lookup id ctx = some v → lookup [] ctx = none → ∀ name aadhar : GoString,
      ∃ ctx', UpdateFarmer ctx id name aadhar = .ok ctx' ∧
        lookup id ctx' = some (.doc (.obj (GoStruct.members
          ({ ID := id, Name := name, Aadhar := aadhar } : Farmer))))) ∧
    (∀ v, lookup id ctx = some v → lookup [] ctx = none → ∀ name gst : GoString,
      ∃ ctx', UpdateCompany ctx id name gst = .ok ctx' ∧
        lookup id ctx' = some (.doc (.obj (GoStruct.members
          ({ ID := id, Name := name, GST := gst } : Company))))) ∧
    (∀ (name gst name' aadhar' : GoString) (ctx1 : World),
      CreateCompany ctx id name gst = .ok ctx1 →
      ∃ ctx2, UpdateFarmer ctx1 id name' aadhar' = .ok ctx2 ∧
        ReadFarmer ctx2 id =
          .ok (Farmer.coerce { ID := id, Name := name', Aadhar := aadhar' }) ∧
        ReadCompany ctx2 id =
          .ok { ID := json.coerce id, Name := json.coerce name', GST := [] }) ∧
    (∀ (name : GoString) (price : GoInt) (lastUpdate name' aadhar' : GoString)
        (ctx1 : World),
      CreateCrop ctx id name price lastUpdate = .ok ctx1 →
      ∃ ctx2, UpdateFarmer ctx1 id name' aadhar' = .ok ctx2 ∧
        ReadFarmer ctx2 id =
          .ok (Farmer.coerce { ID := id, Name := name', Aadhar := aadhar' }) ∧
        GetCrop ctx2 id =
          .ok { ID := json.coerce id, Name := json.coerce name', Price := GoInt.zero,
                LastUpdate := [] }) := by
  have hne : ∀ v, lookup id ctx = some v → lookup [] ctx = none → id ≠ [] := by
    intro v h h0 e
    rw [e, h0] at h
    cases h
  refine ⟨?_, ?_, ?_, ?_, ?_, ?_⟩
  · cases h : lookup id ctx with
    | none => rw [deleteFarmer_of_absent h, deleteCompany_of_absent h]; rfl
    | some v => rw [deleteFarmer_of_present h, deleteCompany_of_present h]
  · cases h : lookup id ctx with
    | none =>
      simp [exec, Op.call, commit, deleteFarmer_of_absent h, deleteCompany_of_absent h]
    | some v =>
      simp [exec, Op.call, commit, deleteFarmer_of_present h, deleteCompany_of_present h]
  · intro v h h0 name aadhar
    exact ⟨_, updateFarmer_of_present h (hne v h h0) name aadhar, lookup_insert_self _ _ _⟩
  · intro v h h0 name gst
    exact ⟨_, updateCompany_of_present h (hne v h h0) name gst, lookup_insert_self _ _ _⟩
  · intro name gst name' aadhar' ctx1 h
    cases hid : lookup id ctx with
    | some v => simp [createCompany_of_present hid] at h
    | none =>
      by_cases hnil : id = []
      · subst hnil
        simp [createCompany_nil hid] at h
      · rw [createCompany_of_absent hid hnil] at h
        have h' := (Except.ok.inj h).symm
        subst h'
        refine ⟨_, updateFarmer_of_present (lookup_insert_self _ _ _) hnil name' aadhar',
          ?_, ?_⟩
        · simp only [ReadFarmer, GetState, lookup_insert_self]
          exact unmarshal_marshal_farmer _
        · simp only [ReadCompany, GetState, lookup_insert_self]
          rfl
  · intro name price lastUpdate name' aadhar' ctx1 h
    by_cases hnil : id = []
    · subst hnil
      simp [createCrop_nil] at h
    · rw [createCrop_of_ne hnil] at h
      have h' := (Except.ok.inj h).symm
      subst h'
      refine ⟨_, updateFarmer_of_present (lookup_insert_self _ _ _) hnil name' aadhar',
        ?_, ?_⟩
      · simp only [ReadFarmer, GetState, lookup_insert_self]
        exact unmarshal_marshal_farmer _
      · simp only [GetCrop, GetState, lookup_insert_self]
        rfl

/-- Witness of C19: `UpdateFarmer` on an id created by `CreateCompany`. -/
theorem farmer_company_mutators_kind_blind_witness :
    CreateCompany emptyLedger (go "co1") (go "Agro") (go "29ABCDE1234F1Z5") =
      .ok (run emptyLedger [.CreateCompany (go "co1") (go "Agro") (go "29ABCDE1234F1Z5")]) ∧
    ∃ ctx2, UpdateFarmer
        (run emptyLedger [.CreateCompany (go "co1") (go "Agro") (go "29ABCDE1234F1Z5")])
        (go "co1") (go "Asha") (go "111122223333") = .ok ctx2 ∧
      ReadFarmer ctx2 (go "co1") =
        .ok { ID := go "co1", Name := go "Asha", Aadhar := go "111122223333" } ∧
      ReadCompany ctx2 (go "co1") =
        .ok { ID := go "co1", Name := go "Asha", GST := [] } := by
  obtain ⟨ctx2, h1, h2, h3⟩ :=
    (farmer_company_mutators_kind_blind emptyLedger (go "co1")).2.2.2.2.1
      (go "Agro") (go "29ABCDE1234F1Z5") (go "Asha") (go "111122223333")
      (run emptyLedger [.CreateCompany (go "co1") (go "Agro") (go "29ABCDE1234F1Z5")])
      (by rfl)
  exact ⟨by rfl, ctx2, h1, h2.trans (by rfl), h3.trans (by rfl)⟩

/-- C20: on every ledger state `InitLedger` succeeds, with no existence check; on the
ledger it leaves, the keys `farmer1` .. `farmer4` hold the four seeded farmers, whatever
they held before, and every other key holds what it held; and `InitLedger` on that ledger
leaves it as it is. -/
theorem initLedger_overwrites_idempotent (ctx : World) :
    ∃ ctx', InitLedger ctx = .ok ctx' ∧
      ReadFarmer ctx' (go "farmer1") =
        .ok { ID := go "farmer1", Name := go "Ravi Kumar", Aadhar := go "123456789012" } ∧
      ReadFarmer ctx' (go "farmer2") =
        .ok { ID := go "farmer2", Name := go "Sunita Sharma",
              Aadhar := go "234567890123" } ∧
      ReadFarmer ctx' (go "farmer3") =
        .ok { ID := go "farmer3", Name := go "Amit Patel", Aadhar := go "345678901234" } ∧
      ReadFarmer ctx' (go "farmer4") =
        .ok { ID := go "farmer4", Name := go "Geeta Verma", Aadhar := go "456789012345" } ∧
      (∀ key, key ∉ [go "farmer1", go "farmer2", go "farmer3", go "farmer4"] →
        lookup key ctx' = lookup key ctx) ∧
      (Ascending ctx → InitLedger ctx' = .ok ctx') := by
  refine ⟨_, initLedger_eq ctx, ?_, ?_, ?_, ?_, ?_, ?_⟩
  · simp only [ReadFarmer, GetState, lookup_seeded]; rfl
  · simp only [ReadFarmer, GetState, lookup_seeded]; rfl
  · simp only [ReadFarmer, GetState, lookup_seeded]; rfl
  · simp only [ReadFarmer, GetState, lookup_seeded]; rfl
  · intro key hkey
    simp only [List.mem_cons, List.mem_singleton, List.not_mem_nil, or_false, not_or] at hkey
    obtain ⟨h1, h2, h3, h4⟩ := hkey
    simp only [lookup_seeded, h1, h2, h3, h4, if_false]
  · intro hctx
    rw [initLedger_eq]
    congr 1
    have hasc := insert_ascending (go "farmer4") (.doc (.obj (GoStruct.members
        ({ ID := go "farmer4", Name := go "Geeta Verma",
           Aadhar := go "456789012345" } : Farmer))))
      (insert_ascending (go "farmer3") (.doc (.obj (GoStruct.members
        ({ ID := go "farmer3", Name := go "Amit Patel",
           Aadhar := go "345678901234" } : Farmer))))
      (insert_ascending (go "farmer2") (.doc (.obj (GoStruct.members
        ({ ID := go "farmer2", Name := go "Sunita Sharma",
           Aadhar := go "234567890123" } : Farmer))))
      (insert_ascending (go "farmer1") (.doc (.obj (GoStruct.members
        ({ ID := go "farmer1", Name := go "Ravi Kumar",
           Aadhar := go "123456789012" } : Farmer))))
      hctx)))
    refine ascending_ext ?_ hasc ?_
    · exact insert_ascending _ _ (insert_ascending _ _ (insert_ascending _ _
        (insert_ascending _ _ hasc)))
    · intro key
      rw [lookup_seeded, lookup_seeded]
      split
      · rfl
      · split
        · rfl
        · split
          · rfl
          · split <;> rfl

/-- Witness of C20: seeding a ledger on which `farmer2` is a company and a crop is stored,
twice. -/
theorem initLedger_overwrites_idempotent_witness :
    Ascending (run emptyLedger
      [.CreateCompany (go "farmer2") (go "Agro") (go "29ABCDE1234F1Z5"),
       .CreateCrop (go "c1") (go "rice") ⟨38, by decide⟩ (go "2024-01-01")]) ∧
    InitLedger (run emptyLedger
      [.CreateCompany (go "farmer2") (go "Agro") (go "29ABCDE1234F1Z5"),
       .CreateCrop (go "c1") (go "rice") ⟨38, by decide⟩ (go "2024-01-01"),
       .InitLedger]) =
    .ok (run emptyLedger
      [.CreateCompany (go "farmer2") (go "Agro") (go "29ABCDE1234F1Z5"),
       .CreateCrop (go "c1") (go "rice") ⟨38, by decide⟩ (go "2024-01-01"),
       .InitLedger]) := by
  have hasc := run_ascending
      [.CreateCompany (go "farmer2") (go "Agro") (go "29ABCDE1234F1Z5"),
       .CreateCrop (go "c1") (go "rice") ⟨38, by decide⟩ (go "2024-01-01")]
      (List.Pairwise.nil : Ascending emptyLedger)
  obtain ⟨ctx', h1, _, _, _, _, _, h2⟩ := initLedger_overwrites_idempotent
    (run emptyLedger
      [.CreateCompany (go "farmer2") (go "Agro") (go "29ABCDE1234F1Z5"),
       .CreateCrop (go "c1") (go "rice") ⟨38, by decide⟩ (go "2024-01-01")])
  have h3 : ctx' = run emptyLedger
      [.CreateCompany (go "farmer2") (go "Agro") (go "29ABCDE1234F1Z5"),
       .CreateCrop (go "c1") (go "rice") ⟨38, by decide⟩ (go "2024-01-01"),
       .InitLedger] :=
    (Except.ok.inj h1).symm
  exact ⟨hasc, h3 ▸ h2 hasc⟩

/-! ## Ledgers the contract has written -/

/-- C14, as stated, fails: after `CreateBid(cropId, ...)` with the `cropId` 0xFE and
`CreateBid(cropId, ...)` with the `cropId` 0xFF (neither is valid UTF-8), the two bids are
stored under the keys `BID_` + 0xFE and `BID_` + 0xFF, each with the `CropID` U+FFFD (the
bytes EF BF BD): `GetAllBids` returns two bids with the same non-empty `CropID`, and
`GetBid` of that `CropID` finds no bid. -/
theorem one_bid_per_crop_counterexample :
    GetAllBids (run emptyLedger
        [.CreateBid [0xFE] (go "rice") (go "111122223333") ⟨40, by decide⟩
          (go "2024-01-01") (go "2024-02-01"),
         .CreateBid [0xFF] (go "wheat") (go "111122223333") ⟨30, by decide⟩
          (go "2024-01-01") (go "2024-02-01")]) =
      .ok [{ CropID := [0xEF, 0xBF, 0xBD], CropName := go "rice",
             FarmerAadhar := go "111122223333", BasePrice := ⟨40, by decide⟩,
             Date := go "2024-01-01", Expiry := go "2024-02-01", Bidders := some [] },
           { CropID := [0xEF, 0xBF, 0xBD], CropName := go "wheat",
             FarmerAadhar := go "111122223333", BasePrice := ⟨30, by decide⟩,
             Date := go "2024-01-01", Expiry := go "2024-02-01", Bidders := some [] }] ∧
    GetBid (run emptyLedger
        [.CreateBid [0xFE] (go "rice") (go "111122223333") ⟨40, by decide⟩
          (go "2024-01-01") (go "2024-02-01"),
         .CreateBid [0xFF] (go "wheat") (go "111122223333") ⟨30, by decide⟩
          (go "2024-01-01") (go "2024-02-01")]) [0xEF, 0xBF, 0xBD] =
      .error (.errorf (go "bid for crop " ++ [0xEF, 0xBF, 0xBD] ++ go " not found")) ∧
    lookup (go "BID_" ++ [0xEF, 0xBF, 0xBD]) (run emptyLedger
        [.CreateBid [0xFE] (go "rice") (go "111122223333") ⟨40, by decide⟩
          (go "2024-01-01") (go "2024-02-01"),
         .CreateBid [0xFF] (go "wheat") (go "111122223333") ⟨30, by decide⟩
          (go "2024-01-01") (go "2024-02-01")]) = none :=
  ⟨by rfl, by rfl, by rfl⟩

/-- C14, amended: on every ledger reached from the empty ledger by calls of the contract
in which the `cropId` of each `CreateBid` is valid UTF-8, `GetAllBids` succeeds, every bid
`b` it returns has a non-empty `CropID` and is the value stored under the key
`"BID_" + b.CropID`, so that `GetBid(b.CropID)` returns `b`, and no two bids of the result
have the same `CropID`. -/
theorem one_bid_per_crop (ops : List Op) (hops : ∀ op ∈ ops, op.ValidBidKey) :
    ∃ bids, GetAllBids (run emptyLedger ops) = .ok bids ∧
      (∀ b ∈ bids, b.CropID ≠ [] ∧
        (∃ data, lookup (go "BID_" ++ b.CropID) (run emptyLedger ops) = some data ∧
          json.Unmarshal data = .ok b) ∧
        GetBid (run emptyLedger ops) b.CropID = .ok b) ∧
      bids.Pairwise fun b b' => b.CropID ≠ b'.CropID := by
  have hasc : Ascending (run emptyLedger ops) :=
    run_ascending ops (List.Pairwise.nil : Ascending emptyLedger)
  have hinv : ∀ e ∈ run emptyLedger ops, BidKeyed e :=
    run_keeps_bidKeyed ops hops (by intro e he; cases he)
  have hdec : ∀ {e : GoString × Bytes} {b : Bid},
      (json.Unmarshal e.2 : Except Error Bid).toOption = some b →
      json.Unmarshal e.2 = .ok b := by
    intro e b h
    cases hu : (json.Unmarshal e.2 : Except Error Bid) with
    | error err => simp [hu, Except.toOption] at h
    | ok b' =>
      simp only [hu, Except.toOption, Option.some.injEq] at h
      rw [h]
  refine ⟨_, getAllBids_eq _, ?_, ?_⟩
  · intro b hb
    obtain ⟨hb1, hb2⟩ := List.mem_filter.mp hb
    have hne : b.CropID ≠ [] := by simpa using hb2
    obtain ⟨e, he, hbe⟩ := List.mem_filterMap.mp hb1
    have hu := hdec hbe
    have hkey : e.1 = go "BID_" ++ b.CropID := hinv e he b hu hne
    have hl : lookup (go "BID_" ++ b.CropID) (run emptyLedger ops) = some e.2 :=
      lookup_of_mem hasc (by rw [← hkey]; exact he)
    refine ⟨hne, ⟨e.2, hl, hu⟩, ?_⟩
    simp only [GetBid, GetState, hl]
    exact hu
  · have hp := List.Pairwise.and_mem.mp hasc
    have hq : List.Pairwise
        (fun b b' : Bid => b.CropID ≠ [] → b'.CropID ≠ [] → b.CropID ≠ b'.CropID)
        ((run emptyLedger ops).filterMap fun e =>
          (json.Unmarshal e.2 : Except Error Bid).toOption) := by
      refine List.Pairwise.filterMap _ ?_ hp
      intro e e' ⟨he, he', hlt⟩ b hb b' hb' hne hne' heq
      have hk : e.1 = go "BID_" ++ b.CropID := hinv e he b (hdec hb) hne
      have hk' : e'.1 = go "BID_" ++ b'.CropID := hinv e' he' b' (hdec hb') hne'
      rw [hk, hk', heq] at hlt
      exact KeyLt.irrefl _ hlt
    refine List.Pairwise.imp_of_mem ?_ (hq.filter _)
    intro b b' hb hb' hR
    have h1 : b.CropID ≠ [] := by simpa using (List.mem_filter.mp hb).2
    have h2 : b'.CropID ≠ [] := by simpa using (List.mem_filter.mp hb').2
    exact hR h1 h2

/-- Witness of the amended C14: two bids are created under the valid UTF-8 ids `c1` and
`c2`, with a bidder on the first, next to the seeded farmers. -/
theorem one_bid_per_crop_witness :
    (∀ op ∈ [Op.InitLedger,
        .CreateBid (go "c1") (go "rice") (go "111122223333") ⟨40, by decide⟩
          (go "2024-01-01") (go "2024-02-01"),
        .CreateBid (go "c2") (go "wheat") (go "111122223333") ⟨30, by decide⟩
          (go "2024-01-01") (go "2024-02-01"),
        .MakeBid (go "c1") (go "Agro") ⟨50, by decide⟩ (go "2024-01-05")],
      op.ValidBidKey) ∧
    ∃ bids, GetAllBids (run emptyLedger [.InitLedger,
        .CreateBid (go "c1") (go "rice") (go "111122223333") ⟨40, by decide⟩
          (go "2024-01-01") (go "2024-02-01"),
        .CreateBid (go "c2") (go "wheat") (go "111122223333") ⟨30, by decide⟩
          (go "2024-01-01") (go "2024-02-01"),
        .MakeBid (go "c1") (go "Agro") ⟨50, by decide⟩ (go "2024-01-05")]) = .ok bids ∧
      (∀ b ∈ bids, b.CropID ≠ [] ∧
        GetBid (run emptyLedger [.InitLedger,
          .CreateBid (go "c1") (go "rice") (go "111122223333") ⟨40, by decide⟩
            (go "2024-01-01") (go "2024-02-01"),
          .CreateBid (go "c2") (go "wheat") (go "111122223333") ⟨30, by decide⟩
            (go "2024-01-01") (go "2024-02-01"),
          .MakeBid (go "c1") (go "Agro") ⟨50, by decide⟩ (go "2024-01-05")]) b.CropID =
          .ok b) ∧
      bids.Pairwise fun b b' => b.CropID ≠ b'.CropID := by
  have hops : ∀ op ∈ [Op.InitLedger,
        .CreateBid (go "c1") (go "rice") (go "111122223333") ⟨40, by decide⟩
          (go "2024-01-01") (go "2024-02-01"),
        .CreateBid (go "c2") (go "wheat") (go "111122223333") ⟨30, by decide⟩
          (go "2024-01-01") (go "2024-02-01"),
        .MakeBid (go "c1") (go "Agro") ⟨50, by decide⟩ (go "2024-01-05")],
      op.ValidBidKey := by
    intro op hop
    simp only [List.mem_cons, List.mem_singleton, List.not_mem_nil, or_false] at hop
    rcases hop with rfl | rfl | rfl | rfl
    · exact trivial
    · exact ⟨"c1", rfl⟩
    · exact ⟨"c2", rfl⟩
    · exact trivial
  obtain ⟨bids, h1, h2, h3⟩ := one_bid_per_crop _ hops
  exact ⟨hops, bids, h1, fun b hb => ⟨(h2 b hb).1, (h2 b hb).2.2⟩, h3⟩

/-- C18: on every ledger reached from the empty ledger by calls of the contract, every
stored value decodes without error as a farmer, as a company, as a crop and as a bid; so
`GetAllFarmers` does not fail there and returns one entry for each entry of the store,
whichever function wrote it, in the order of the store, which is ascending in the keys. -/
theorem stored_values_decode_as_every_kind (ops : List Op) :
    (∀ key data, lookup key (run emptyLedger ops) = some data → DecodesAsEveryKind data) ∧
    (∀ e ∈ run emptyLedger ops, DecodesAsEveryKind e.2) ∧
    Ascending (run emptyLedger ops) ∧
    ∃ farmers, GetAllFarmers (run emptyLedger ops) = .ok farmers ∧
      farmers.length = (run emptyLedger ops).length ∧
      List.Forall₂ (fun e farmer => json.Unmarshal e.2 = .ok farmer)
        (run emptyLedger ops) farmers := by
  have hinv : ∀ e ∈ run emptyLedger ops, DecodesAsEveryKind e.2 :=
    run_keeps_decodable ops (by intro e he; cases he)
  obtain ⟨farmers, h1, h2⟩ := getAllFarmers_loop_all (run emptyLedger ops) []
    fun e he => (hinv e he).1
  refine ⟨fun key data h => hinv _ (mem_of_lookup h), hinv,
    run_ascending ops (List.Pairwise.nil : Ascending emptyLedger), farmers, ?_,
    h2.length_eq.symm, h2⟩
  simp only [GetAllFarmers, getStateByRange_all]
  simpa using h1

end Chaincode
